import Mathlib

/-!
# Verification of zlib-rs claims

Shallow embedding of the `zlib-rs` sources:

* `src/libz-rs-sys/src/lib.rs` — the FFI boundary layer (checksum wrappers,
  `compress2`/`uncompress`, `deflate`/`inflate` entry points, null-pointer
  validation);
* `src/src/deflate_algorithm/stored.rs` — the stored-block encoding strategy
  `deflate_stored`.

Functions of the `zlib_rs` core crate that are not part of the provided
sources (the checksum engine, `zng_tr_stored_block`, `flush_pending`,
`read_buf`, the flush-mode enums, and the one-shot compress/uncompress
cores) are modelled from the specification; each such definition carries a
doc comment starting with `Modelled from the spec:`.

Machine integers are modelled as `Nat` (with explicit `% 2 ^ w` at the
points where the source casts) and `Int` for the signed `z_off_t` /
`isize` values.  Byte buffers are `List Nat`.
-/

namespace ZlibRs

/-! ## Byte-level helpers -/

/-- The two little-endian bytes of the low 16 bits of `n`
(the `u16::to_le_bytes` of `n as u16`). -/
def le16 (n : Nat) : List Nat := [n % 256, n / 256 % 256]

/-- `n` zero bytes. -/
def zeros (n : Nat) : List Nat := List.replicate n 0

/-- Overwrite `dst` starting at offset `off` with the bytes of `src`
(the semantics of `core::ptr::copy_nonoverlapping` into a buffer). -/
def writeAt (dst : List Nat) (off : Nat) (src : List Nat) : List Nat :=
  dst.take off ++ src ++ dst.drop (off + src.length)

/-- The last `n` elements of `l`. -/
def takeLast (l : List Nat) (n : Nat) : List Nat := l.drop (l.length - n)

@[simp] theorem zeros_length (n : Nat) : (zeros n).length = n := by
  simp [zeros]

@[simp] theorem zeros_succ (n : Nat) : zeros (n + 1) = 0 :: zeros n := by
  simp [zeros, List.replicate_succ]

/-! ## Checksum engine (CRC-32)

The checksum core (`zlib_rs::crc32`, `zlib_rs::crc32_combine`) is not among
the provided sources; it is modelled from the spec ("the two well-known
32-bit algorithms (CRC-based and summation-based)", §6, and the combine
law of §4.1). -/

/-- The reflected CRC-32 generator polynomial. -/
def CRC_POLY : Nat := 0xEDB88320

/-- The 32-bit all-ones mask used for the CRC pre/post conditioning. -/
def MASK32 : Nat := 0xFFFFFFFF

/-- Modelled from the spec: one bit-step of the reflected CRC-32 linear
feedback shift register. -/
def crcStepBit (c : Nat) : Nat := c / 2 ^^^ (if c % 2 = 1 then CRC_POLY else 0)

/-- Modelled from the spec: absorb one byte into the raw (un-conditioned)
CRC state: xor the byte in, then run eight LFSR bit-steps. -/
def crcStepByte (c b : Nat) : Nat := crcStepBit^[8] (c ^^^ b)

/-- Modelled from the spec: the raw CRC fold over a byte sequence. -/
def crcRaw (c : Nat) : List Nat → Nat
  | [] => c
  | b :: bs => crcRaw (crcStepByte c b) bs

/-- Modelled from the spec: `zlib_rs::crc32`, the well-known CRC-32
running checksum (`update` of §4.1), with the standard pre/post
complement conditioning.  `crc32 0 [] = 0` is the identity element. -/
def crc32 (crc : Nat) (buf : List Nat) : Nat :=
  crcRaw (crc % 2 ^ 32 ^^^ MASK32) buf ^^^ MASK32

/-- Modelled from the spec: `zlib_rs::crc32_combine` (`combine` of §4.1),
characterised by zero-padding: advancing `crc1` over `len2` zero bytes
realises the multiplication by `x^(8·len2)` of the well-known log-time
method, and xoring `crc2` adds the second checksum.  Mathematically equal
to the matrix/polynomial method used by the C implementations. -/
def crc32_combine (crc1 crc2 : Nat) (len2 : Nat) : Nat :=
  crc32 crc1 (zeros len2) ^^^ crc32 0 (zeros len2) ^^^ crc2

/-! ## Checksum engine (Adler-32) -/

/-- The Adler-32 modulus. -/
def ADLER_BASE : Nat := 65521

/-- Modelled from the spec: the Adler-32 scan: `a` accumulates the byte sum
and `b` accumulates the running sum of `a`, both modulo `ADLER_BASE`. -/
def adlerLoop : Nat × Nat → List Nat → Nat × Nat
  | ab, [] => ab
  | (a, b), x :: xs =>
    let a' := (a + x) % ADLER_BASE
    adlerLoop (a', (b + a') % ADLER_BASE) xs

/-- Modelled from the spec: `zlib_rs::adler32`, the well-known
summation-based checksum (`update` of §4.1).  The accumulator packs `b`
in the high 16 bits and `a` in the low 16 bits; `adler32 1 [] = 1` is the
identity element. -/
def adler32 (adler : Nat) (buf : List Nat) : Nat :=
  (adlerLoop (adler % 65536, adler / 65536 % 65536) buf).2 * 65536 +
    (adlerLoop (adler % 65536, adler / 65536 % 65536) buf).1

/-- Modelled from the spec: `zlib_rs::adler32_combine` (`combine` of
§4.1), via the well-known closed form: the combined low half is
`a₁ + a₂ - 1` and the combined high half is `len2·a₁ + b₁ + b₂ - len2`,
all modulo `ADLER_BASE`. -/
def adler32_combine (adler1 adler2 : Nat) (len2 : Nat) : Nat :=
  (len2 % ADLER_BASE * (adler1 % 65536) + adler1 / 65536 % 65536 +
      adler2 / 65536 % 65536 + ADLER_BASE - len2 % ADLER_BASE) % ADLER_BASE * 65536 +
    (adler1 % 65536 + adler2 % 65536 + ADLER_BASE - 1) % ADLER_BASE

/-! ## Checksum FFI wrappers (src/libz-rs-sys/src/lib.rs) -/

/-- `crc32_combine` at the FFI boundary (lib.rs lines 153–156): truncates
the accumulators to `u32` and casts `len2 as u64` — with **no** check for
a negative length. -/
def crc32_combine_ffi (crc1 crc2 : Nat) (len2 : Int) : Nat :=
  crc32_combine (crc1 % 2 ^ 32) (crc2 % 2 ^ 32) (len2 % 2 ^ 64).toNat

/-- `adler32_combine` at the FFI boundary (lib.rs lines 221–230):
`u64::try_from(len2)` fails for negative `len2`, in which case the
function returns the invalid-checksum sentinel `0xFFFF_FFFF` as a clue
for debugging. -/
def adler32_combine_ffi (adler1 adler2 : Nat) (len2 : Int) : Nat :=
  if len2 < 0 then 0xFFFFFFFF
  else adler32_combine (adler1 % 2 ^ 32) (adler2 % 2 ^ 32) len2.toNat

/-! ## Adler-32: the combine law -/

/-- The weighted byte sum `Σ (n - i) · xᵢ` that the high half of Adler-32
accumulates over a sequence of length `n`. -/
def wsum : List Nat → Nat
  | [] => 0
  | x :: xs => (xs.length + 1) * x + wsum xs

@[simp] theorem adlerLoop_nil (ab : Nat × Nat) : adlerLoop ab [] = ab := rfl

/-! ## One-shot compress/uncompress as a stored-block stream (C1)

`zlib_rs::deflate::compress` and `zlib_rs::inflate::uncompress` (the cores
behind the `compress2`/`uncompress` wrappers in lib.rs) are not among the
provided sources.  They are modelled from the spec's complete description
of the stored-block wire format (§4.4, §6): a stream of stored blocks,
each a 3-bit final/type header padded to a byte boundary, a little-endian
16-bit length, its one's complement, and the verbatim payload. -/

/-- The format's maximum stored-block payload (`MAX_STORED` in
`stored.rs`). -/
def MAX_STORED : Nat := 65535

/-- Modelled from the spec: one stored block on the wire.  The first byte
holds the 3-bit header (final flag plus block type `00`) padded with
zeros to the byte boundary, then the block length twice (second copy
inverted, for self-checking), then the raw payload (§6). -/
def storedBlock (last : Bool) (chunk : List Nat) : List Nat :=
  (if last then 1 else 0) ::
    (le16 chunk.length ++ le16 (65535 - chunk.length) ++ chunk)

/-- Modelled from the spec: `zlib_rs::deflate::compress` restricted to the
stored-block strategy this core specifies in full: the source is chunked
into blocks of at most `MAX_STORED` bytes, the last one marked final. -/
def storedBlocks (S : List Nat) : List Nat :=
  if S.drop MAX_STORED = [] then storedBlock true (S.take MAX_STORED)
  else storedBlock false (S.take MAX_STORED) ++ storedBlocks (S.drop MAX_STORED)
termination_by S.length
decreasing_by
  rename_i h
  have hgt : MAX_STORED < S.length := by
    by_contra hle
    push_neg at hle
    exact h (List.drop_eq_nil_of_le hle)
  simp only [List.length_drop]
  unfold MAX_STORED at hgt ⊢
  omega

/-- Modelled from the spec: the whole-buffer compression core behind
`compress2` (lib.rs lines 942–979).  The compression level and window
size select among block strategies in the real engine; the stored-block
strategy modelled here is valid output at every supported level and
window size, so the parameters do not influence the modelled stream. -/
def compress (_level : Int) (_windowBits : Int) (S : List Nat) : List Nat :=
  storedBlocks S

/-- Modelled from the spec: the stored-block parser of the decompression
state machine: reads one block header, validates the inverted length
copy, takes the payload, and either finishes (final block, input must be
exhausted) or continues with the remaining stream. -/
def parseBlocks : Nat → List Nat → Option (List Nat)
  | 0, _ => none
  | fuel + 1, bs =>
    match bs with
    | hdr :: l0 :: l1 :: n0 :: n1 :: rest =>
      if hdr / 2 % 4 ≠ 0 then none
      else
        if n0 + 256 * n1 ≠ 65535 - (l0 + 256 * l1) then none
        else if rest.length < l0 + 256 * l1 then none
        else if hdr % 2 = 1 then
          if rest.drop (l0 + 256 * l1) = [] then some (rest.take (l0 + 256 * l1))
          else none
        else
          match parseBlocks fuel (rest.drop (l0 + 256 * l1)) with
          | some tail => some (rest.take (l0 + 256 * l1) ++ tail)
          | none => none
    | _ => none

/-- Modelled from the spec: the whole-buffer decompression core behind
`uncompress` (lib.rs lines 286–321), on the stored-block stream model. -/
def uncompress (bs : List Nat) : Option (List Nat) :=
  parseBlocks bs.length bs

/-! ## The deflate state and the `deflate_stored` strategy
(src/src/deflate_algorithm/stored.rs)

The state records mirror the fields of `zlib_rs::deflate::State` and the
`z_stream` that `deflate_stored` touches.  The caller's input buffer is
`src` with read cursor `next_in` (so pointer arithmetic like
`next_in.wrapping_sub(w_size)` becomes index arithmetic), and the bytes
written through `next_out` are accumulated in order in `dst`. -/

/-- Modelled from the spec: the pending (bit/byte) output buffer of §4.3,
with the `capacity`/`extend`/`rewind` operations `deflate_stored` uses.
`buf` holds the staged bytes not yet flushed to the caller. -/
structure Pending where
  buf : List Nat
  cap : Nat
  deriving DecidableEq

def Pending.extend (p : Pending) (bs : List Nat) : Pending :=
  { p with buf := p.buf ++ bs }

def Pending.rewind (p : Pending) (n : Nat) : Pending :=
  { p with buf := p.buf.take (p.buf.length - n) }

/-- The compression internal state (the fields of `State` that
`deflate_stored` reads and writes). -/
structure DeflateState where
  pending : Pending
  bi_buf : Nat
  bi_valid : Nat
  w_size : Nat
  window_size : Nat
  window : List Nat
  strstart : Nat
  block_start : Int
  insert : Nat
  matches_ : Nat
  high_water : Nat
  deriving DecidableEq

/-- The stream handle (the fields of `DeflateStream` that `deflate_stored`
reads and writes). -/
structure Stream where
  state : DeflateState
  src : List Nat
  next_in : Nat
  avail_in : Nat
  dst : List Nat
  avail_out : Nat
  total_out : Nat
  deriving DecidableEq

/-- Modelled from the spec: the flush modes of §6
(`no-flush, partial, sync, full, finish, block`). -/
inductive Flush
  | NoFlush
  | PartialFlush
  | SyncFlush
  | FullFlush
  | Finish
  | Block
  deriving DecidableEq

/-- The block-level return states of the deflate algorithms. -/
inductive BlockState
  | NeedMore
  | BlockDone
  | FinishStarted
  | FinishDone
  deriving DecidableEq

/-- `u32::wrapping_sub`. -/
def wrappingSub32 (a b : Nat) : Nat := (a % 2 ^ 32 + 2 ^ 32 - b % 2 ^ 32) % 2 ^ 32

/-- `c_ulong::wrapping_add`. -/
def wrappingAdd64 (a b : Nat) : Nat := (a + b) % 2 ^ 64

/-- `as usize` on an `isize` value. -/
def usizeOfInt (i : Int) : Nat := (i % 2 ^ 64).toNat

/-- Modelled from the spec: `send_bits` — append `n` bits of `v` to the
bit accumulator (§4.3). -/
def sendBits (s : DeflateState) (v n : Nat) : DeflateState :=
  { s with bi_buf := s.bi_buf ||| v <<< s.bi_valid, bi_valid := s.bi_valid + n }

/-- Modelled from the spec: `bi_windup` — flush the bit accumulator into
the pending buffer as whole bytes and clear it (§4.3: leftover bits are
flushed into the pending buffer as full bytes become available; aligning
pads the final partial byte with zeros). -/
def biWindup (s : DeflateState) : DeflateState :=
  if 8 < s.bi_valid then
    { s with
        pending := s.pending.extend [s.bi_buf % 256, s.bi_buf / 256 % 256],
        bi_buf := 0,
        bi_valid := 0 }
  else if 0 < s.bi_valid then
    { s with
        pending := s.pending.extend [s.bi_buf % 256],
        bi_buf := 0,
        bi_valid := 0 }
  else
    { s with bi_buf := 0, bi_valid := 0 }

/-- Modelled from the spec: `zng_tr_stored_block` — the block-header
writer: send the 3-bit final/type header (`(STORED_BLOCK << 1) + last`),
align to a byte boundary, write the payload length and its one's
complement as little-endian 16-bit fields, then the payload bytes (§6). -/
def zng_tr_stored_block (s : DeflateState) (buf : List Nat) (last : Bool) : DeflateState :=
  let s1 := sendBits s (if last then 1 else 0) 3
  let s2 := biWindup s1
  { s2 with
      pending :=
        s2.pending.extend (le16 buf.length ++ le16 (65535 - buf.length % 65536) ++ buf) }

/-- Modelled from the spec: `flush_pending` — copy as many pending bytes
as fit into the caller's output, advancing both cursors (§4.3). -/
def flush_pending (strm : Stream) : Stream :=
  let n := min strm.state.pending.buf.length strm.avail_out
  { strm with
    dst := strm.dst ++ strm.state.pending.buf.take n,
    avail_out := strm.avail_out - n,
    total_out := wrappingAdd64 strm.total_out n,
    state := { strm.state with
      pending := { strm.state.pending with buf := strm.state.pending.buf.drop n } } }

/-- Modelled from the spec: the input side of `read_buf` — take `len`
bytes from the caller's input, advancing `next_in`/`avail_in` (the
checksum update that `read_buf` also performs is not needed by any claim
and is omitted). -/
def takeInput (strm : Stream) (len : Nat) : List Nat × Stream :=
  ((strm.src.drop strm.next_in).take len,
    { strm with next_in := strm.next_in + len, avail_in := strm.avail_in - len })

/-- Outcome of one iteration of the direct-copy loop: `brk` leaves the
loop, `cont` continues with the next iteration; both carry the stream and
the `last` flag. -/
inductive LoopOut
  | brk (strm : Stream) (last : Bool)
  | cont (strm : Stream) (last : Bool)
  deriving DecidableEq

/-- The number of stored-block header bytes given the pending bit count:
`(bi_valid + 42) / 8` (stored.rs line 27). -/
def storedHeaderBytes (s : DeflateState) : Nat := (s.bi_valid + 42) / 8

/-- The candidate direct-copy block length (stored.rs lines 24–44):
`min (min MAX_STORED (left + avail_in)) (avail_out - header)`. -/
def storedLen (strm : Stream) (left : Nat) : Nat :=
  min (min MAX_STORED (left + strm.avail_in))
    (strm.avail_out - storedHeaderBytes strm.state)

/-- The unflushed window region `max 0 (strstart - block_start)`
(stored.rs lines 34–35). -/
def storedLeft (s : DeflateState) : Nat :=
  ((s.strstart : Int) - s.block_start).toNat

/-- The header-write phase of one emitting iteration (stored.rs lines
58–69): write a dummy stored block via `zng_tr_stored_block` to get the
header bytes, rewind 4 bytes in the pending buffer, and overwrite them
with `len` and `!len` as little-endian `u16` fields. -/
def storedEmitHeader (st : DeflateState) (len : Nat) (last : Bool) : DeflateState :=
  let st1 := zng_tr_stored_block st [] last
  { st1 with
    pending := (st1.pending.rewind 4).extend (le16 len ++ le16 (65535 - len % 65536)) }

/-- The emit phase of one iteration of the direct-copy loop (stored.rs
lines 58–96): write and flush the patched header, copy the unflushed
window region, then copy the remaining bytes straight from the input. -/
def storedEmit (strm : Stream) (left len : Nat) (last : Bool) : Stream :=
  let strm1 := flush_pending { strm with state := storedEmitHeader strm.state len last }
  let strm2 :=
    if 0 < left then
      let l2 := min left len
      { strm1 with
          dst := strm1.dst ++
            (strm1.state.window.drop (usizeOfInt strm1.state.block_start)).take l2,
          avail_out := wrappingSub32 strm1.avail_out l2,
          total_out := wrappingAdd64 strm1.total_out l2,
          state := { strm1.state with
            block_start := strm1.state.block_start + ((min left len : Nat) : Int) } }
    else strm1
  let len1 := if 0 < left then len - min left len else len
  if 0 < len1 then
    let p := takeInput strm2 len1
    { p.2 with
        dst := p.2.dst ++ p.1,
        avail_out := wrappingSub32 p.2.avail_out len1,
        total_out := wrappingAdd64 p.2.total_out len1 }
  else strm2

/-- One iteration of the direct-copy loop of `deflate_stored`
(stored.rs lines 22–101). -/
def storedLoopStep (strm : Stream) (flush : Flush) (min_block : Nat) (last0 : Bool) :
    LoopOut :=
  let hdr := storedHeaderBytes strm.state
  if strm.avail_out < hdr then .brk strm last0
  else
    let left := storedLeft strm.state
    let len := storedLen strm left
    if len < min_block ∧
        ((len = 0 ∧ flush ≠ Flush.Finish) ∨ flush = Flush.NoFlush ∨
          len ≠ left + strm.avail_in) then
      .brk strm last0
    else
      let last : Bool := flush = Flush.Finish ∧ len = left + strm.avail_in
      let strm3 := storedEmit strm left len last
      if last then .brk strm3 last else .cont strm3 last

/-- The direct-copy loop of `deflate_stored`, driven by fuel (the loop in
the source terminates because each emitting iteration consumes output
space; the fuel passed by `deflate_stored` is `avail_out + 1`). -/
def storedLoop : Nat → Stream → Flush → Nat → Bool → Stream × Bool
  | 0, strm, _, _, last => (strm, last)
  | fuel + 1, strm, flush, min_block, last =>
    match storedLoopStep strm flush min_block last with
    | .brk s l => (s, l)
    | .cont s l => storedLoop fuel s flush min_block l

/-- The slide of the window down by `w_size` (stored.rs lines 128–142):
rebase `strstart`, copy the upper half down, schedule a pending
`slide_hash`, and clamp `insert`. -/
def slideWindow (st : DeflateState) : DeflateState :=
  { st with
    strstart := st.strstart - st.w_size,
    window := writeAt st.window 0
      ((st.window.drop st.w_size).take (st.strstart - st.w_size)),
    matches_ := if st.matches_ < 2 then st.matches_ + 1 else st.matches_,
    insert := min st.insert (st.strstart - st.w_size) }

/-- The window reconciliation after the direct-copy loop
(stored.rs lines 108–155), with `used` the number of input bytes consumed
directly by the loop. -/
def reconcileWindow (strm : Stream) (used : Nat) : Stream :=
  if 0 < used then
    let st := strm.state
    if st.w_size ≤ used then
      let st1 := { st with
        matches_ := 2,
        window := writeAt st.window 0
          ((strm.src.take strm.next_in).drop (strm.next_in - st.w_size)),
        strstart := st.w_size }
      let st2 := { st1 with insert := st1.strstart }
      { strm with state := { st2 with block_start := (st2.strstart : Int) } }
    else
      let st1 := if st.window_size - st.strstart ≤ used then slideWindow st else st
      let st2 := { st1 with
        window := writeAt st1.window st1.strstart
          ((strm.src.take strm.next_in).drop (strm.next_in - used)),
        strstart := st1.strstart + used,
        insert := st1.insert + min used (st1.w_size - st1.insert) }
      { strm with state := { st2 with block_start := (st2.strstart : Int) } }
  else strm

/-- The fill-window top-up (stored.rs lines 177–188): read `n` bytes of
input into the window at `strstart` via `read_buf`. -/
def fillWindow (strm : Stream) (n : Nat) : Stream :=
  let p := takeInput strm n
  { p.2 with
      state := { p.2.state with
        window := writeAt p.2.state.window p.2.state.strstart p.1,
        strstart := p.2.state.strstart + n,
        insert := p.2.state.insert + min n (p.2.state.w_size - p.2.state.insert) } }

/-- The high-water bump `high_water = max high_water strstart`
(stored.rs lines 157 and 190–191). -/
def bumpHighWater (strm : Stream) : Stream :=
  { strm with
    state := { strm.state with
      high_water := max strm.state.high_water strm.state.strstart } }

/-- The conditional window top-up (stored.rs lines 177–188): fill with
`min (window_size - strstart) avail_in` input bytes when positive. -/
def fillMaybe (strm : Stream) : Stream :=
  let have2 := min (strm.state.window_size - strm.state.strstart) strm.avail_in
  if 0 < have2 then fillWindow strm have2 else strm

/-- The buffered fallback (stored.rs lines 193–239): when there was not
enough output room for a direct block, write a stored block of the
unflushed window region into the pending buffer instead, when worthy or
forced, then flush pending. -/
def storedFallback (strm4 : Stream) (flush : Flush) : BlockState × Stream :=
  let hdr := (strm4.state.bi_valid + 42) >>> 3
  let haveP := min (strm4.state.pending.cap - hdr) MAX_STORED
  let min_block2 := min haveP strm4.state.w_size
  let left : Int := (strm4.state.strstart : Int) - strm4.state.block_start
  if (min_block2 : Int) ≤ left ∨
      ((0 < left ∨ flush = Flush.Finish) ∧ flush ≠ Flush.NoFlush ∧
        strm4.avail_in = 0 ∧ left ≤ (haveP : Int)) then
    let len := min (usizeOfInt left) haveP
    let last2 : Bool := flush = Flush.Finish ∧ strm4.avail_in = 0 ∧ len = usizeOfInt left
    let tmp := (strm4.state.window.drop (usizeOfInt strm4.state.block_start)).take len
    let st1 := zng_tr_stored_block strm4.state tmp last2
    let st2 := { st1 with block_start := st1.block_start + (len : Int) }
    let strm5 := flush_pending { strm4 with state := st2 }
    (if last2 then .FinishStarted else .NeedMore, strm5)
  else
    (.NeedMore, strm4)

/-- The decision part of the `deflate_stored` tail, after reconciliation
and the first high-water bump (stored.rs lines 159–239). -/
def deflateStoredTail (strm2 : Stream) (flush : Flush) (last : Bool) :
    Except String (BlockState × Stream) :=
  if last then .ok (.FinishDone, strm2)
  else if flush ≠ Flush.NoFlush ∧ flush ≠ Flush.Finish ∧ strm2.avail_in = 0 ∧
      (strm2.state.strstart : Int) = strm2.state.block_start then
    .ok (.BlockDone, strm2)
  else if strm2.state.window_size - strm2.state.strstart < strm2.avail_in ∧
      (strm2.state.w_size : Int) ≤ strm2.state.block_start then
    .error "fill window"
  else
    .ok (storedFallback (bumpHighWater (fillMaybe strm2)) flush)

/-- The tail of `deflate_stored` after the direct-copy loop
(stored.rs lines 103–239): window reconciliation, the early returns, the
window top-up with the `todo!("fill window")` escape (modelled as
`Except.error`), and the buffered fallback block written to pending. -/
def deflateStoredRest (strm : Stream) (flush : Flush) (last : Bool) (used : Nat) :
    Except String (BlockState × Stream) :=
  deflateStoredTail (bumpHighWater (reconcileWindow strm used)) flush last

/-- `deflate_stored` (stored.rs lines 8–239). -/
def deflate_stored (strm : Stream) (flush : Flush) :
    Except String (BlockState × Stream) :=
  let min_block := min (strm.state.pending.cap - 5) strm.state.w_size
  let p := storedLoop (strm.avail_out + 1) strm flush min_block false
  deflateStoredRest p.1 flush p.2 (strm.avail_in - p.1.avail_in)

/-! ## FFI entry points (src/libz-rs-sys/src/lib.rs)

A `*mut z_stream` argument is modelled as `Option α`: `none` is the NULL
pointer (`from_stream_mut` maps it to `None`), `some s` a valid stream.
The cores `zlib_rs::deflate::deflate` / `zlib_rs::inflate::inflate` are
not among the provided sources, so the wrappers are parameterised over an
arbitrary core of the right shape; every theorem below holds for every
core, which is exactly what the boundary layer guarantees. -/

/-- The status codes of `ReturnCode`, as the C integers the entry points
return. -/
def Z_OK : Int := 0

def Z_STREAM_ERROR : Int := -2

/-- Modelled from the spec: `DeflateFlush::try_from` — the flush modes
are the values `0..=5` (`no-flush, partial, sync, full, finish, block`,
§6); any other integer is rejected. -/
def deflateFlushTryFrom (flush : Int) : Option Flush :=
  if flush = 0 then some Flush.NoFlush
  else if flush = 1 then some Flush.PartialFlush
  else if flush = 2 then some Flush.SyncFlush
  else if flush = 3 then some Flush.FullFlush
  else if flush = 4 then some Flush.Finish
  else if flush = 5 then some Flush.Block
  else none

/-- Modelled from the spec: the inflate-side flush conversion; `inflate`
applies `.unwrap_or_default()` to it, and the default flush mode is
`no-flush`. -/
def inflateFlushTryFromOrDefault (flush : Int) : Flush :=
  (deflateFlushTryFrom flush).getD Flush.NoFlush

/-- `deflate` at the FFI boundary (lib.rs lines 815–825), parameterised
over the `zlib_rs::deflate::deflate` core: NULL (or invalid) handle →
`StreamError`; invalid flush value → `StreamError`; otherwise the core
runs. -/
def deflate_ffi {α : Type} (core : α → Flush → Int × α)
    (strm : Option α) (flush : Int) : Int × Option α :=
  match strm with
  | some s =>
    match deflateFlushTryFrom flush with
    | some fl => let p := core s fl; (p.1, some p.2)
    | none => (Z_STREAM_ERROR, some s)
  | none => (Z_STREAM_ERROR, none)

/-- `inflate` at the FFI boundary (lib.rs lines 343–351), parameterised
over the `zlib_rs::inflate::inflate` core: NULL (or invalid) handle →
`StreamError`; the flush value is converted with `unwrap_or_default`,
i.e. out-of-range values silently become the default flush mode. -/
def inflate_ffi {α : Type} (core : α → Flush → Int × α)
    (strm : Option α) (flush : Int) : Int × Option α :=
  match strm with
  | some s => let p := core s (inflateFlushTryFromOrDefault flush); (p.1, some p.2)
  | none => (Z_STREAM_ERROR, none)

/-- `deflateEnd` at the FFI boundary (lib.rs lines 986–995),
parameterised over `zlib_rs::deflate::end` (which may fail, mapped to
`DataError`). -/
def deflateEnd_ffi {α : Type} (core : α → Except Unit Unit)
    (strm : Option α) : Int × Option α :=
  match strm with
  | some s =>
    match core s with
    | .ok _ => (Z_OK, none)
    | .error _ => (-3, none)
  | none => (Z_STREAM_ERROR, none)

/-- `inflateEnd` at the FFI boundary (lib.rs lines 367–376),
parameterised over `zlib_rs::inflate::end`. -/
def inflateEnd_ffi {α : Type} (core : α → Unit) (strm : Option α) : Int × Option α :=
  match strm with
  | some s => let _ := core s; (Z_OK, none)
  | none => (Z_STREAM_ERROR, none)

/-- `uncompress` at the FFI boundary (lib.rs lines 285–321),
parameterised over the `zlib_rs::inflate::uncompress` core.  `dest`,
`destLen` and `source` are pointer arguments (`none` = NULL); the result
is the returned status, the value written through `destLen`, and the
bytes written through `dest`.  Each NULL pointer fails closed with
`StreamError`, writing nothing. -/
def uncompress_ffi (core : Nat → List Nat → List Nat × Int)
    (dest : Option Unit) (destLen : Option Nat) (source : Option (List Nat)) :
    Int × Option Nat × Option (List Nat) :=
  match destLen with
  | none => (Z_STREAM_ERROR, destLen, none)
  | some len =>
    match dest with
    | none => (Z_STREAM_ERROR, destLen, none)
    | some _ =>
      match source with
      | none => (Z_STREAM_ERROR, destLen, none)
      | some input =>
        let p := core len input
        (p.2, some p.1.length, some p.1)

/-- `compress2` at the FFI boundary (lib.rs lines 941–979),
parameterised over the `zlib_rs::deflate::compress` core; same pointer
validation as `uncompress`. -/
def compress2_ffi (core : Nat → List Nat → Int → List Nat × Int)
    (dest : Option Unit) (destLen : Option Nat) (source : Option (List Nat))
    (level : Int) : Int × Option Nat × Option (List Nat) :=
  match destLen with
  | none => (Z_STREAM_ERROR, destLen, none)
  | some len =>
    match dest with
    | none => (Z_STREAM_ERROR, destLen, none)
    | some _ =>
      match source with
      | none => (Z_STREAM_ERROR, destLen, none)
      | some input =>
        let p := core len input level
        (p.2, some p.1.length, some p.1)

/-- The stream carried by a loop-iteration outcome. -/
def LoopOut.stream : LoopOut → Stream
  | .brk s _ => s
  | .cont s _ => s

/-- The window invariant of the compression state (§3):
`0 ≤ block_start ≤ strstart ≤ window_size`. -/
def Inv (st : DeflateState) : Prop :=
  0 ≤ st.block_start ∧ st.block_start ≤ (st.strstart : Int) ∧
    st.strstart ≤ st.window_size

/-- A concrete stream for the C6 witness: three pending bits, empty
pending byte buffer, ample output room. -/
def c6stream : Stream :=
  { state :=
      { pending := { buf := [], cap := 64 }
        bi_buf := 5
        bi_valid := 3
        w_size := 4
        window_size := 8
        window := [0, 0, 0, 0, 0, 0, 0, 0]
        strstart := 0
        block_start := 0
        insert := 0
        matches_ := 0
        high_water := 0 }
    src := []
    next_in := 0
    avail_in := 0
    dst := []
    avail_out := 32
    total_out := 0 }

/-- A concrete stream for the C5 witness: `left = 0`, three input bytes,
`min_block = 4 > len = 3`, but flush is `Finish` and the block consumes
all input, so the loop emits an (undersized, forced) final block. -/
def c5stream : Stream :=
  { state :=
      { pending := { buf := [], cap := 100 }
        bi_buf := 0
        bi_valid := 0
        w_size := 4
        window_size := 8
        window := [0, 0, 0, 0, 0, 0, 0, 0]
        strstart := 0
        block_start := 0
        insert := 0
        matches_ := 0
        high_water := 0 }
    src := [1, 2, 3]
    next_in := 0
    avail_in := 3
    dst := []
    avail_out := 50
    total_out := 0 }

/-- A concrete stream for the C7 witness: a 2-byte window inside a 4-byte
buffer, three input bytes fully consumed (`used = 3 ≥ w_size = 2`), so
the supplant branch replaces the window history. -/
def c7stream : Stream :=
  { state :=
      { pending := { buf := [], cap := 10 }
        bi_buf := 0
        bi_valid := 0
        w_size := 2
        window_size := 4
        window := [10, 11, 12, 13]
        strstart := 2
        block_start := 0
        insert := 0
        matches_ := 0
        high_water := 0 }
    src := [1, 2, 3]
    next_in := 3
    avail_in := 0
    dst := []
    avail_out := 0
    total_out := 0 }

/-- The concrete state exercising C3: the window is full
(`strstart = window_size`), fully flushed (`block_start = strstart`), at
least one full window of history is unflushed-free (`block_start ≥
w_size`), the output buffer is exhausted and one more input byte is
available — so the direct-copy loop breaks immediately and the
fill-window branch is reached. -/
def fillWindowState : DeflateState :=
  { pending := { buf := [], cap := 7 }
    bi_buf := 0
    bi_valid := 0
    w_size := 2
    window_size := 4
    window := [0, 0, 0, 0]
    strstart := 4
    block_start := 4
    insert := 0
    matches_ := 0
    high_water := 0 }

def fillWindowStream : Stream :=
  { state := fillWindowState
    src := [9]
    next_in := 0
    avail_in := 1
    dst := []
    avail_out := 0
    total_out := 0 }

/-- A concrete in-invariant state for the C8 witness: an empty, fully
flushed window of size `w_size = 2` with no input or output room. -/
def c8stream : Stream :=
  { state :=
      { pending := { buf := [], cap := 7 }
        bi_buf := 0
        bi_valid := 0
        w_size := 2
        window_size := 4
        window := [0, 0, 0, 0]
        strstart := 0
        block_start := 0
        insert := 0
        matches_ := 0
        high_water := 0 }
    src := []
    next_in := 0
    avail_in := 0
    dst := []
    avail_out := 0
    total_out := 0 }

/-! ## CRC-32: GF(2)-linearity of the LFSR and the combine law -/

theorem mod_two_xor (x y : Nat) : (x ^^^ y) % 2 = x % 2 ^^^ y % 2 := by
  have h1 : ∀ z : Nat, z % 2 = z &&& 1 := fun z => (Nat.and_one_is_mod z).symm
  rw [h1, h1, h1, Nat.and_xor_distrib_right]

theorem crcStepBit_eq (c : Nat) : crcStepBit c = c / 2 ^^^ c % 2 * CRC_POLY := by
  unfold crcStepBit
  rcases Nat.mod_two_eq_zero_or_one c with h | h <;> simp [h]

theorem crcStepBit_xor (x y : Nat) :
    crcStepBit (x ^^^ y) = crcStepBit x ^^^ crcStepBit y := by
  rw [crcStepBit_eq, crcStepBit_eq, crcStepBit_eq, Nat.xor_div_two, mod_two_xor]
  rcases Nat.mod_two_eq_zero_or_one x with hx | hx <;>
    rcases Nat.mod_two_eq_zero_or_one y with hy | hy <;>
    simp [hx, hy] <;>
    apply Nat.eq_of_testBit_eq <;>
    intro i <;>
    simp only [Nat.testBit_xor] <;>
    cases (x / 2).testBit i <;> cases (y / 2).testBit i <;>
    cases CRC_POLY.testBit i <;> decide

theorem crcStepBit_iter_xor (k x y : Nat) :
    crcStepBit^[k] (x ^^^ y) = crcStepBit^[k] x ^^^ crcStepBit^[k] y := by
  induction k generalizing x y with
  | zero => rfl
  | succ k ih =>
    rw [Function.iterate_succ_apply, Function.iterate_succ_apply,
      Function.iterate_succ_apply, crcStepBit_xor, ih]

theorem crcStepByte_xor_split (c1 c2 b : Nat) :
    crcStepByte (c1 ^^^ c2) b = crcStepByte c1 b ^^^ crcStepByte c2 0 := by
  unfold crcStepByte
  rw [← crcStepBit_iter_xor]
  congr 1
  apply Nat.eq_of_testBit_eq
  intro i
  simp only [Nat.testBit_xor, Nat.zero_testBit]
  cases c1.testBit i <;> cases c2.testBit i <;> cases b.testBit i <;> decide

/-- Joint GF(2)-linearity of the raw CRC fold: splitting the state xors
the two runs, with the second run over zero padding of the same length. -/
theorem crcRaw_xor (B : List Nat) :
    ∀ c1 c2, crcRaw (c1 ^^^ c2) B = crcRaw c1 B ^^^ crcRaw c2 (zeros B.length) := by
  induction B with
  | nil => intro c1 c2; simp [crcRaw, zeros]
  | cons b bs ih =>
    intro c1 c2
    show crcRaw (crcStepByte (c1 ^^^ c2) b) bs = _
    rw [crcStepByte_xor_split, ih]
    simp only [List.length_cons, zeros_succ]
    rfl

theorem crcRaw_append (A B : List Nat) (c : Nat) :
    crcRaw c (A ++ B) = crcRaw (crcRaw c A) B := by
  induction A generalizing c with
  | nil => rfl
  | cons a as ih => exact ih (crcStepByte c a)

theorem crcStepBit_lt (c : Nat) (h : c < 2 ^ 32) : crcStepBit c < 2 ^ 32 := by
  unfold crcStepBit
  have hdiv : c / 2 < 2 ^ 32 := Nat.lt_of_le_of_lt (Nat.div_le_self c 2) h
  split
  · exact Nat.xor_lt_two_pow hdiv (by norm_num [CRC_POLY])
  · simpa using hdiv

theorem crcStepByte_lt (c b : Nat) (hc : c < 2 ^ 32) (hb : b < 256) :
    crcStepByte c b < 2 ^ 32 := by
  unfold crcStepByte
  have h0 : c ^^^ b < 2 ^ 32 :=
    Nat.xor_lt_two_pow hc (lt_trans hb (by norm_num))
  clear hc hb
  generalize c ^^^ b = z at h0
  induction (8 : Nat) generalizing z with
  | zero => simpa using h0
  | succ k ih =>
    rw [Function.iterate_succ_apply]
    exact ih _ (crcStepBit_lt z h0)

theorem crcRaw_lt (B : List Nat) :
    ∀ c, c < 2 ^ 32 → (∀ x ∈ B, x < 256) → crcRaw c B < 2 ^ 32 := by
  induction B with
  | nil => intro c hc _; simpa [crcRaw] using hc
  | cons b bs ih =>
    intro c hc hb
    exact ih _ (crcStepByte_lt c b hc (hb b (List.mem_cons_self b bs)))
      fun x hx => hb x (List.mem_cons_of_mem b hx)

/-- The key padding identity: running the raw CRC from state `c` over `B`
equals the xor of the run over `|B|` zero bytes from `c`, the run over the
zeros from the all-ones state, and the run over `B` from the all-ones
state. -/
theorem crcRaw_decompose (B : List Nat) (c : Nat) :
    crcRaw c B =
      crcRaw c (zeros B.length) ^^^ crcRaw MASK32 (zeros B.length) ^^^
        crcRaw MASK32 B := by
  have h1 : crcRaw (MASK32 ^^^ (c ^^^ MASK32)) B =
      crcRaw MASK32 B ^^^ crcRaw (c ^^^ MASK32) (zeros B.length) :=
    crcRaw_xor B MASK32 (c ^^^ MASK32)
  have hMc : MASK32 ^^^ (c ^^^ MASK32) = c := by
    apply Nat.eq_of_testBit_eq
    intro i
    simp only [Nat.testBit_xor]
    cases MASK32.testBit i <;> cases c.testBit i <;> decide
  rw [hMc] at h1
  have h2 : crcRaw (c ^^^ MASK32) (zeros B.length) =
      crcRaw c (zeros B.length) ^^^ crcRaw MASK32 (zeros B.length) := by
    have := crcRaw_xor (zeros B.length) c MASK32
    simpa using this
  rw [h1, h2]
  apply Nat.eq_of_testBit_eq
  intro i
  simp only [Nat.testBit_xor]
  cases (crcRaw c (zeros B.length)).testBit i <;>
    cases (crcRaw MASK32 (zeros B.length)).testBit i <;>
    cases (crcRaw MASK32 B).testBit i <;> decide

/-- The CRC-32 combine law at the level of the modelled core functions. -/
theorem crc32_combine_law (A B : List Nat) (hA : ∀ x ∈ A, x < 256) :
    crc32_combine (crc32 0 A) (crc32 0 B) B.length = crc32 0 (A ++ B) := by
  have hM32 : MASK32 < 2 ^ 32 := by norm_num [MASK32]
  have hzero32 : (0 : Nat) % 2 ^ 32 ^^^ MASK32 = MASK32 := by
    simp [Nat.zero_mod, Nat.zero_xor]
  set c : Nat := crcRaw MASK32 A with hc
  have hclt : c < 2 ^ 32 := crcRaw_lt A MASK32 hM32 hA
  have halt : c ^^^ MASK32 < 2 ^ 32 := Nat.xor_lt_two_pow hclt hM32
  have hA0 : crc32 0 A = c ^^^ MASK32 := by rw [crc32, hzero32]
  have hback : (c ^^^ MASK32) % 2 ^ 32 ^^^ MASK32 = c := by
    rw [Nat.mod_eq_of_lt halt, Nat.xor_assoc, Nat.xor_self, Nat.xor_zero]
  have h1 : crc32 (crc32 0 A) (zeros B.length) =
      crcRaw c (zeros B.length) ^^^ MASK32 := by
    rw [hA0, crc32, hback]
  have h2 : crc32 0 (zeros B.length) = crcRaw MASK32 (zeros B.length) ^^^ MASK32 := by
    rw [crc32, hzero32]
  have h3 : crc32 0 B = crcRaw MASK32 B ^^^ MASK32 := by rw [crc32, hzero32]
  have htgt : crc32 0 (A ++ B) = crcRaw c B ^^^ MASK32 := by
    rw [crc32, hzero32, crcRaw_append]
  rw [crc32_combine, h1, h2, h3, htgt, crcRaw_decompose B c]
  apply Nat.eq_of_testBit_eq
  intro i
  simp only [Nat.testBit_xor]
  cases (crcRaw c (zeros B.length)).testBit i <;>
    cases (crcRaw MASK32 (zeros B.length)).testBit i <;>
    cases (crcRaw MASK32 B).testBit i <;>
    cases MASK32.testBit i <;> decide

/-- `crc32_combine` with both checksums zero yields zero, whatever the
(possibly negative, hence wrapped) length argument is. -/
theorem crc32_combine_ffi_zero (len2 : Int) : crc32_combine_ffi 0 0 len2 = 0 := by
  rw [crc32_combine_ffi, crc32_combine]
  simp [Nat.xor_self, Nat.xor_zero]

theorem adlerLoop_cons (a b x : Nat) (xs : List Nat) :
    adlerLoop (a, b) (x :: xs) =
      adlerLoop ((a + x) % ADLER_BASE, (b + (a + x) % ADLER_BASE) % ADLER_BASE) xs := rfl

theorem wsum_append (A B : List Nat) :
    wsum (A ++ B) = wsum A + B.length * A.sum + wsum B := by
  induction A with
  | nil => simp [wsum]
  | cons a as ih =>
    show (((as ++ B).length + 1) * a + wsum (as ++ B)) = _
    rw [ih, List.length_append]
    simp only [wsum, List.sum_cons]
    ring

/-- Closed form of the Adler-32 scan on a non-empty buffer. -/
theorem adlerLoop_eq (buf : List Nat) (hne : buf ≠ []) : ∀ a b,
    adlerLoop (a, b) buf =
      ((a + buf.sum) % ADLER_BASE,
        (b + buf.length * a + wsum buf) % ADLER_BASE) := by
  induction buf with
  | nil => exact absurd rfl hne
  | cons x xs ih =>
    intro a b
    rw [adlerLoop_cons]
    by_cases hxs : xs = []
    · subst hxs
      simp only [adlerLoop_nil, List.sum_cons, List.sum_nil, List.length_cons,
        List.length_nil, wsum, Prod.mk.injEq]
      constructor
      · ring_nf
      · show (b + (a + x) % ADLER_BASE) % ADLER_BASE = _
        unfold ADLER_BASE
        omega
    · rw [ih hxs]
      simp only [List.sum_cons, List.length_cons, wsum, Prod.mk.injEq]
      constructor
      · show ((a + x) % ADLER_BASE + xs.sum) % ADLER_BASE = _
        unfold ADLER_BASE
        omega
      · show ((b + (a + x) % ADLER_BASE) % ADLER_BASE
            + xs.length * ((a + x) % ADLER_BASE) + wsum xs) % ADLER_BASE = _
        have hmul : xs.length * ((a + x) % ADLER_BASE) % ADLER_BASE
            = (xs.length * a + xs.length * x) % ADLER_BASE := by
          have h1 : xs.length * ((a + x) % ADLER_BASE) % ADLER_BASE
              = xs.length * (a + x) % ADLER_BASE :=
            Nat.ModEq.mul_left xs.length (Nat.mod_modEq (a + x) ADLER_BASE)
          rw [h1, Nat.mul_add]
        have hga : (xs.length + 1) * a = xs.length * a + a := by ring
        have hgx : (xs.length + 1) * x = xs.length * x + x := by ring
        rw [hga, hgx]
        generalize xs.length * ((a + x) % ADLER_BASE) = p at hmul ⊢
        generalize xs.length * a = ea at hmul ⊢
        generalize xs.length * x = ex at hmul ⊢
        unfold ADLER_BASE at hmul ⊢
        omega

/-- `adler32 1` on a non-empty buffer, in closed form. -/
theorem adler32_one_eq (X : List Nat) (hne : X ≠ []) :
    adler32 1 X =
      (X.length + wsum X) % ADLER_BASE * 65536 + (1 + X.sum) % ADLER_BASE := by
  rw [adler32]
  norm_num [adlerLoop_eq X hne 1 0]

theorem adler_base_pos : 0 < ADLER_BASE := by norm_num [ADLER_BASE]

@[simp] theorem adler32_one_nil : adler32 1 [] = 1 := rfl

/-- The Adler-32 combine law at the level of the modelled core functions. -/
theorem adler32_combine_law (A B : List Nat) :
    adler32_combine (adler32 1 A) (adler32 1 B) B.length = adler32 1 (A ++ B) := by
  by_cases hA : A = []
  · subst hA
    by_cases hB : B = []
    · subst hB; decide
    · simp only [List.nil_append, adler32_one_nil]
      rw [adler32_one_eq B hB]
      have ha : (1 + B.sum) % ADLER_BASE < 65521 := Nat.mod_lt _ adler_base_pos
      have hb : (B.length + wsum B) % ADLER_BASE < 65521 := Nat.mod_lt _ adler_base_pos
      unfold adler32_combine
      generalize (1 + B.sum) % ADLER_BASE = aB at *
      generalize (B.length + wsum B) % ADLER_BASE = bB at *
      have e1 : (bB * 65536 + aB) % 65536 = aB := by omega
      have e2 : (bB * 65536 + aB) / 65536 % 65536 = bB := by omega
      rw [e1, e2]
      unfold ADLER_BASE
      omega
  · by_cases hB : B = []
    · subst hB
      simp only [List.append_nil, List.length_nil, adler32_one_nil]
      rw [adler32_one_eq A hA]
      have ha : (1 + A.sum) % ADLER_BASE < 65521 := Nat.mod_lt _ adler_base_pos
      have hb : (A.length + wsum A) % ADLER_BASE < 65521 := Nat.mod_lt _ adler_base_pos
      unfold adler32_combine
      generalize (1 + A.sum) % ADLER_BASE = aA at *
      generalize (A.length + wsum A) % ADLER_BASE = bA at *
      have e1 : (bA * 65536 + aA) % 65536 = aA := by omega
      have e2 : (bA * 65536 + aA) / 65536 % 65536 = bA := by omega
      rw [e1, e2]
      unfold ADLER_BASE
      omega
    · have hAB : A ++ B ≠ [] := by simp [hA]
      rw [adler32_one_eq A hA, adler32_one_eq B hB, adler32_one_eq (A ++ B) hAB]
      unfold adler32_combine
      rw [List.sum_append, List.length_append, wsum_append]
      have haA : (1 + A.sum) % ADLER_BASE < 65521 := Nat.mod_lt _ adler_base_pos
      have haB : (1 + B.sum) % ADLER_BASE < 65521 := Nat.mod_lt _ adler_base_pos
      have hbA : (A.length + wsum A) % ADLER_BASE < 65521 := Nat.mod_lt _ adler_base_pos
      have hbB : (B.length + wsum B) % ADLER_BASE < 65521 := Nat.mod_lt _ adler_base_pos
      have e1 : ((A.length + wsum A) % ADLER_BASE * 65536 + (1 + A.sum) % ADLER_BASE)
          % 65536 = (1 + A.sum) % ADLER_BASE := by omega
      have e2 : ((A.length + wsum A) % ADLER_BASE * 65536 + (1 + A.sum) % ADLER_BASE)
          / 65536 % 65536 = (A.length + wsum A) % ADLER_BASE := by omega
      have e3 : ((B.length + wsum B) % ADLER_BASE * 65536 + (1 + B.sum) % ADLER_BASE)
          % 65536 = (1 + B.sum) % ADLER_BASE := by omega
      have e4 : ((B.length + wsum B) % ADLER_BASE * 65536 + (1 + B.sum) % ADLER_BASE)
          / 65536 % 65536 = (B.length + wsum B) % ADLER_BASE := by omega
      rw [e1, e2, e3, e4]
      have hmul : B.length % ADLER_BASE * ((1 + A.sum) % ADLER_BASE) % ADLER_BASE
          = (B.length + B.length * A.sum) % ADLER_BASE := by
        have h1 : B.length % ADLER_BASE * ((1 + A.sum) % ADLER_BASE) % ADLER_BASE
            = B.length * (1 + A.sum) % ADLER_BASE :=
          Nat.ModEq.mul (Nat.mod_modEq B.length ADLER_BASE)
            (Nat.mod_modEq (1 + A.sum) ADLER_BASE)
        have h2 : B.length * (1 + A.sum) = B.length + B.length * A.sum := by ring
        rw [h1, h2]
      unfold ADLER_BASE at hmul ⊢
      omega

theorem le16_val (n : Nat) (h : n ≤ 65535) : n % 256 + 256 * (n / 256 % 256) = n := by
  omega

theorem parseBlocks_storedBlocks (fuel : Nat) :
    ∀ S : List Nat, S.length < fuel →
      parseBlocks fuel (storedBlocks S) = some S := by
  induction fuel with
  | zero => intro S h; omega
  | succ fuel ih =>
    intro S hS
    rw [storedBlocks.eq_def]
    by_cases h : S.drop MAX_STORED = []
    · rw [if_pos h]
      have hle : S.length ≤ MAX_STORED := by
        by_contra hgt
        push_neg at hgt
        have := List.length_drop MAX_STORED S
        rw [h] at this
        simp at this
        omega
      have htake : S.take MAX_STORED = S := List.take_of_length_le hle
      rw [htake, storedBlock]
      show parseBlocks (fuel + 1)
        (1 :: (le16 S.length ++ le16 (65535 - S.length) ++ S)) = some S
      simp only [le16, List.cons_append, List.append_assoc, List.nil_append]
      rw [parseBlocks]
      have h1 : S.length % 256 + 256 * (S.length / 256 % 256) = S.length :=
        le16_val _ (by unfold MAX_STORED at hle; omega)
      have h2 : (65535 - S.length) % 256 + 256 * ((65535 - S.length) / 256 % 256)
          = 65535 - S.length :=
        le16_val _ (by omega)
      simp only [h1, h2]
      norm_num
    · rw [if_neg h]
      have hgt : MAX_STORED < S.length := by
        by_contra hle
        push_neg at hle
        exact h (List.drop_eq_nil_of_le hle)
      have hctake : (S.take MAX_STORED).length = MAX_STORED :=
        List.length_take_of_le (le_of_lt hgt)
      rw [storedBlock]
      show parseBlocks (fuel + 1)
        ((if False = True then 1 else 0) ::
          (le16 (S.take MAX_STORED).length ++
            le16 (65535 - (S.take MAX_STORED).length) ++ S.take MAX_STORED ++
            storedBlocks (S.drop MAX_STORED))) = some S
      simp only [le16, List.cons_append, List.append_assoc, List.nil_append, hctake]
      rw [parseBlocks]
      have h1 : MAX_STORED % 256 + 256 * (MAX_STORED / 256 % 256) = MAX_STORED :=
        le16_val _ (by norm_num [MAX_STORED])
      have h2 : (65535 - MAX_STORED) % 256 + 256 * ((65535 - MAX_STORED) / 256 % 256)
          = 65535 - MAX_STORED :=
        le16_val _ (by omega)
      simp only [h1, h2]
      have hrest : S.take MAX_STORED ++ storedBlocks (S.drop MAX_STORED)
          = S.take MAX_STORED ++ storedBlocks (S.drop MAX_STORED) := rfl
      have hlen2 : ¬ ((S.take MAX_STORED ++ storedBlocks (S.drop MAX_STORED)).length
          < MAX_STORED) := by
        rw [List.length_append, hctake]
        omega
      have hdrop : (S.take MAX_STORED ++ storedBlocks (S.drop MAX_STORED)).drop MAX_STORED
          = storedBlocks (S.drop MAX_STORED) := List.drop_left' hctake
      have htke : (S.take MAX_STORED ++ storedBlocks (S.drop MAX_STORED)).take MAX_STORED
          = S.take MAX_STORED := List.take_left' hctake
      have hih : parseBlocks fuel (storedBlocks (S.drop MAX_STORED)) = some (S.drop MAX_STORED) := by
        apply ih
        rw [List.length_drop]
        have hM : MAX_STORED = 65535 := rfl
        omega
      simp only [if_neg hlen2, hdrop, htke, hih]
      norm_num [List.take_append_drop]

theorem storedBlocks_length_ge (fuel : Nat) :
    ∀ S : List Nat, S.length < fuel → S.length + 5 ≤ (storedBlocks S).length := by
  induction fuel with
  | zero => intro S h; omega
  | succ fuel ih =>
    intro S hS
    rw [storedBlocks.eq_def]
    by_cases h : S.drop MAX_STORED = []
    · rw [if_pos h]
      have hle : S.length ≤ MAX_STORED := by
        by_contra hgt
        push_neg at hgt
        have := List.length_drop MAX_STORED S
        rw [h] at this
        simp at this
        omega
      rw [storedBlock, List.take_of_length_le hle]
      simp [le16]
    · rw [if_neg h]
      have hgt : MAX_STORED < S.length := by
        by_contra hle
        push_neg at hle
        exact h (List.drop_eq_nil_of_le hle)
      have hih := ih (S.drop MAX_STORED)
        (by rw [List.length_drop]; have hM : MAX_STORED = 65535 := rfl; omega)
      rw [List.length_append, storedBlock]
      simp only [List.length_cons, List.length_append, le16, List.length_drop,
        List.length_take] at hih ⊢
      omega

/-- Round-trip at the level of the modelled one-shot cores. -/
theorem uncompress_compress (level windowBits : Int) (S : List Nat) :
    uncompress (compress level windowBits S) = some S := by
  rw [compress, uncompress]
  apply parseBlocks_storedBlocks
  have := storedBlocks_length_ge (S.length + 1) S (by omega)
  omega

/-! ## Remaining helper lemmas for the checksum claims -/

theorem crc32_lt (X : List Nat) (c : Nat) (hX : ∀ x ∈ X, x < 256) :
    crc32 c X < 2 ^ 32 := by
  rw [crc32]
  have hM : MASK32 < 2 ^ 32 := by norm_num [MASK32]
  have h1 : c % 2 ^ 32 ^^^ MASK32 < 2 ^ 32 :=
    Nat.xor_lt_two_pow (Nat.mod_lt _ (by norm_num)) hM
  exact Nat.xor_lt_two_pow (crcRaw_lt X _ h1 hX) hM

theorem adler32_one_lt (X : List Nat) : adler32 1 X < 2 ^ 32 := by
  by_cases hX : X = []
  · subst hX; decide
  · rw [adler32_one_eq X hX]
    have h1 : (X.length + wsum X) % ADLER_BASE < 65521 := Nat.mod_lt _ adler_base_pos
    have h2 : (1 + X.sum) % ADLER_BASE < 65521 := Nat.mod_lt _ adler_base_pos
    omega

theorem natCast_emod_toNat (n : Nat) (h : n < 2 ^ 63) :
    ((n : Int) % 2 ^ 64).toNat = n := by
  have h1 : (n : Int) % 2 ^ 64 = (n : Int) := by
    apply Int.emod_eq_of_lt (by positivity)
    exact_mod_cast lt_trans h (by norm_num)
  rw [h1]
  exact Int.toNat_natCast n

/-! ## Header mechanics of the direct-copy emit path (C5, C6) -/

/-- With less than a byte of pending bits, the dummy stored block written
by the block-header writer is the windup bytes followed by the four
length bytes `[0, 0, 255, 255]` of the empty payload, and its total
length is exactly the accounted `(bi_valid + 42) / 8` header size. -/
theorem zng_tr_stored_block_nil (st : DeflateState) (last : Bool)
    (hb : st.bi_valid ≤ 7) :
    ∃ w : List Nat,
      (zng_tr_stored_block st [] last).pending.buf = st.pending.buf ++ w ++ [0, 0, 255, 255] ∧
      w.length + 4 = (st.bi_valid + 42) / 8 := by
  rw [zng_tr_stored_block]
  by_cases h8 : 8 < st.bi_valid + 3
  · refine ⟨[(st.bi_buf ||| (if last then 1 else 0) <<< st.bi_valid) % 256,
      (st.bi_buf ||| (if last then 1 else 0) <<< st.bi_valid) / 256 % 256], ?_,
      by simp only [List.length_cons, List.length_nil]; omega⟩
    show ((biWindup (sendBits st (if last then 1 else 0) 3)).pending.extend
      (le16 0 ++ le16 (65535 - 0 % 65536) ++ [])).buf = _
    rw [biWindup, sendBits]
    simp only [if_pos h8, Pending.extend, le16]
    simp
  · refine ⟨[(st.bi_buf ||| (if last then 1 else 0) <<< st.bi_valid) % 256], ?_,
      by simp only [List.length_cons, List.length_nil]; omega⟩
    show ((biWindup (sendBits st (if last then 1 else 0) 3)).pending.extend
      (le16 0 ++ le16 (65535 - 0 % 65536) ++ [])).buf = _
    rw [biWindup, sendBits]
    simp only [if_neg h8, if_pos (by omega : 0 < st.bi_valid + 3), Pending.extend, le16]
    simp

/-- The rewind-by-4 exactly cancels the dummy's four length bytes, and
the two little-endian 16-bit fields `len`/`!len` take their place. -/
theorem storedEmitHeader_buf (st : DeflateState) (len : Nat) (last : Bool)
    (hb : st.bi_valid ≤ 7) :
    ∃ w : List Nat,
      (zng_tr_stored_block st [] last).pending.buf
        = st.pending.buf ++ w ++ [0, 0, 255, 255] ∧
      (storedEmitHeader st len last).pending.buf
        = st.pending.buf ++ w ++ (le16 len ++ le16 (65535 - len % 65536)) ∧
      w.length + 4 = (st.bi_valid + 42) / 8 := by
  obtain ⟨w, hw, hwl⟩ := zng_tr_stored_block_nil st last hb
  refine ⟨w, hw, ?_, hwl⟩
  rw [storedEmitHeader]
  show ((zng_tr_stored_block st [] last).pending.rewind 4).buf ++ _ = _
  rw [Pending.rewind, hw]
  have hlen : (st.pending.buf ++ w ++ [0, 0, 255, 255]).length
      = (st.pending.buf ++ w).length + 4 := by simp; omega
  rw [hlen, Nat.add_sub_cancel, ← List.append_assoc, List.take_left' rfl,
    List.append_assoc]

/-- When all pending bytes fit in the available output, `flush_pending`
moves the whole pending buffer to the output. -/
theorem flush_pending_all (strm : Stream)
    (h : strm.state.pending.buf.length ≤ strm.avail_out) :
    flush_pending strm = { strm with
      dst := strm.dst ++ strm.state.pending.buf,
      avail_out := strm.avail_out - strm.state.pending.buf.length,
      total_out := wrappingAdd64 strm.total_out strm.state.pending.buf.length,
      state := { strm.state with
        pending := { strm.state.pending with buf := [] } } } := by
  rw [flush_pending]
  have hmin : min strm.state.pending.buf.length strm.avail_out
      = strm.state.pending.buf.length := Nat.min_eq_left h
  rw [hmin, List.take_length, List.drop_length]

/-- The header-write phase only touches the pending buffer contents and
the bit accumulator; every other state field is preserved. -/
theorem storedEmitHeader_fields (st : DeflateState) (len : Nat) (last : Bool) :
    (storedEmitHeader st len last).window = st.window ∧
    (storedEmitHeader st len last).block_start = st.block_start ∧
    (storedEmitHeader st len last).strstart = st.strstart ∧
    (storedEmitHeader st len last).w_size = st.w_size ∧
    (storedEmitHeader st len last).window_size = st.window_size ∧
    (storedEmitHeader st len last).insert = st.insert ∧
    (storedEmitHeader st len last).matches_ = st.matches_ ∧
    (storedEmitHeader st len last).high_water = st.high_water ∧
    (storedEmitHeader st len last).pending.cap = st.pending.cap := by
  rw [storedEmitHeader, zng_tr_stored_block, biWindup, sendBits]
  split_ifs <;> exact ⟨rfl, rfl, rfl, rfl, rfl, rfl, rfl, rfl, rfl⟩

@[simp] theorem storedEmitHeader_window (st : DeflateState) (len : Nat) (last : Bool) :
    (storedEmitHeader st len last).window = st.window :=
  (storedEmitHeader_fields st len last).1

@[simp] theorem storedEmitHeader_block_start (st : DeflateState) (len : Nat) (last : Bool) :
    (storedEmitHeader st len last).block_start = st.block_start :=
  (storedEmitHeader_fields st len last).2.1

@[simp] theorem storedEmitHeader_strstart (st : DeflateState) (len : Nat) (last : Bool) :
    (storedEmitHeader st len last).strstart = st.strstart :=
  (storedEmitHeader_fields st len last).2.2.1

@[simp] theorem storedEmitHeader_w_size (st : DeflateState) (len : Nat) (last : Bool) :
    (storedEmitHeader st len last).w_size = st.w_size :=
  (storedEmitHeader_fields st len last).2.2.2.1

@[simp] theorem storedEmitHeader_window_size (st : DeflateState) (len : Nat) (last : Bool) :
    (storedEmitHeader st len last).window_size = st.window_size :=
  (storedEmitHeader_fields st len last).2.2.2.2.1

/-- Under the emit preconditions, the whole emit phase appends exactly
the header plus a `len`-byte payload to the output. -/
theorem storedEmit_dst_length (strm : Stream) (last : Bool)
    (hp : strm.state.pending.buf = []) (hb : strm.state.bi_valid ≤ 7)
    (hout : storedHeaderBytes strm.state ≤ strm.avail_out)
    (hbs0 : 0 ≤ strm.state.block_start)
    (hbss : strm.state.block_start ≤ (strm.state.strstart : Int))
    (hsw : strm.state.strstart ≤ strm.state.window.length)
    (hs64 : strm.state.strstart < 2 ^ 64)
    (hsrc : strm.next_in + strm.avail_in ≤ strm.src.length) :
    (storedEmit strm (storedLeft strm.state) (storedLen strm (storedLeft strm.state))
        last).dst.length
      = strm.dst.length + storedHeaderBytes strm.state
          + storedLen strm (storedLeft strm.state) := by
  obtain ⟨w, hw1, hw2, hw3⟩ := storedEmitHeader_buf strm.state
    (storedLen strm (storedLeft strm.state)) last hb
  set left := storedLeft strm.state with hleft
  set len := storedLen strm left with hlendef
  have hlen_le : len ≤ left + strm.avail_in := by
    rw [hlendef, storedLen]
    omega
  -- the flushed header
  have hbuflen : (storedEmitHeader strm.state len last).pending.buf.length
      = storedHeaderBytes strm.state := by
    rw [hw2, hp, storedHeaderBytes]
    simp [le16]
    omega
  have hhdr5 : 5 ≤ storedHeaderBytes strm.state := by
    rw [storedHeaderBytes]; omega
  have hbsNat : usizeOfInt strm.state.block_start = strm.state.block_start.toNat := by
    rw [usizeOfInt, Int.emod_eq_of_lt hbs0]
    have : (strm.state.strstart : Int) < 2 ^ 64 := by exact_mod_cast hs64
    omega
  have hbs_le : strm.state.block_start.toNat ≤ strm.state.strstart := by omega
  have hleft_eq : strm.state.block_start.toNat + left = strm.state.strstart := by
    rw [hleft, storedLeft]
    omega
  have hwinlen : ((strm.state.window.drop (usizeOfInt strm.state.block_start)).take
      (min left len)).length = min left len := by
    rw [hbsNat, List.length_take, List.length_drop]
    omega
  have hsrclen : ∀ k, k ≤ strm.avail_in →
      ((strm.src.drop strm.next_in).take k).length = k := by
    intro k hk
    rw [List.length_take, List.length_drop]
    omega
  simp only [storedEmit]
  rw [flush_pending_all { strm with state := storedEmitHeader strm.state len last }
    (by simpa [hbuflen] using hout)]
  by_cases hl : 0 < left
  · simp only [if_pos hl]
    by_cases hl1 : 0 < len - min left len
    · simp only [if_pos hl1, takeInput, List.length_append, List.length_take,
        List.length_drop, hbuflen, storedEmitHeader_window, storedEmitHeader_block_start]
      rw [hbsNat]
      omega
    · simp only [if_neg hl1, List.length_append, List.length_take, List.length_drop,
        hbuflen, storedEmitHeader_window, storedEmitHeader_block_start]
      rw [hbsNat]
      omega
  · simp only [if_neg hl]
    by_cases hl1 : 0 < len
    · simp only [if_pos hl1, takeInput, List.length_append, List.length_take,
        List.length_drop, hbuflen]
      omega
    · simp only [if_neg hl1, List.length_append, hbuflen]
      omega

/-! ## Claim theorems -/

/-- **C1.**  For every byte sequence `S` and every window size and
compression level, decompressing the output of the one-shot compression
(the cores behind `compress2` and `uncompress` over whole buffers) yields
exactly `S`. -/
theorem claim_C1_roundtrip (level windowBits : Int) (S : List Nat) :
    uncompress (compress level windowBits S) = some S :=
  uncompress_compress level windowBits S

/-- **C2 (counterexample).**  The claim says the *CRC* combine returns the
sentinel `0xFFFFFFFF` for a negative length; at `crc1 = crc2 = 0`,
`len2 = -1` the CRC variant instead wraps the length to `u64` and returns
an ordinary combination (here `0`). -/
theorem claim_C2_counterexample : crc32_combine_ffi 0 0 (-1) ≠ 0xFFFFFFFF := by
  rw [crc32_combine_ffi_zero]
  decide

/-- **C2 (amended).**  It is the summation-variant combine
(`adler32_combine`) that returns the debugging sentinel `0xFFFFFFFF` for
every negative length argument; `crc32_combine` performs no such check
(it casts `len2 as u64`). -/
theorem claim_C2_amended (adler1 adler2 : Nat) (len2 : Int) (h : len2 < 0) :
    adler32_combine_ffi adler1 adler2 len2 = 0xFFFFFFFF := by
  rw [adler32_combine_ffi, if_pos h]

theorem claim_C2_witness :
    (-1 : Int) < 0 ∧ adler32_combine_ffi 123 456 (-1) = 0xFFFFFFFF :=
  ⟨by decide, claim_C2_amended 123 456 (-1) (by decide)⟩

/-- **C4.**  For both checksum algorithms, combining the checksum of `A`
with the checksum of `B` using `B`'s length (through the FFI combine
wrappers) equals the checksum of the concatenation `A ‖ B`. -/
theorem claim_C4_combine_laws (A B : List Nat)
    (hA : ∀ x ∈ A, x < 256) (hB : ∀ x ∈ B, x < 256) (hlen : B.length < 2 ^ 63) :
    crc32_combine_ffi (crc32 0 A) (crc32 0 B) (B.length : Int) = crc32 0 (A ++ B) ∧
    adler32_combine_ffi (adler32 1 A) (adler32 1 B) (B.length : Int)
      = adler32 1 (A ++ B) := by
  constructor
  · rw [crc32_combine_ffi, natCast_emod_toNat B.length hlen,
      Nat.mod_eq_of_lt (crc32_lt A 0 hA), Nat.mod_eq_of_lt (crc32_lt B 0 hB)]
    exact crc32_combine_law A B hA
  · rw [adler32_combine_ffi, if_neg (by simp)]
    rw [show ((B.length : Int)).toNat = B.length from Int.toNat_natCast B.length,
      Nat.mod_eq_of_lt (adler32_one_lt A), Nat.mod_eq_of_lt (adler32_one_lt B)]
    exact adler32_combine_law A B

theorem claim_C4_witness :
    (∀ x ∈ [1, 2], x < 256) ∧ (∀ x ∈ [3], x < 256) ∧ [3].length < 2 ^ 63 ∧
    (crc32_combine_ffi (crc32 0 [1, 2]) (crc32 0 [3]) (([3] : List Nat).length : Int)
        = crc32 0 ([1, 2] ++ [3]) ∧
      adler32_combine_ffi (adler32 1 [1, 2]) (adler32 1 [3]) (([3] : List Nat).length : Int)
        = adler32 1 ([1, 2] ++ [3])) :=
  ⟨by decide, by decide, by norm_num,
    claim_C4_combine_laws [1, 2] [3] (by decide) (by decide) (by norm_num)⟩

/-- **C9.**  Every modelled entry point taking a stream handle or required
pointer returns `StreamError` on a NULL argument, leaving the referenced
cells unchanged — for every possible behaviour of the wrapped core. -/
theorem claim_C9_null_arguments (α : Type)
    (dcore : α → Flush → Int × α) (icore : α → Flush → Int × α)
    (ecore : α → Except Unit Unit) (iecore : α → Unit)
    (ucore : Nat → List Nat → List Nat × Int)
    (ccore : Nat → List Nat → Int → List Nat × Int)
    (flush level : Int) (dl : Nat) (dest? : Option Unit)
    (src? : Option (List Nat)) :
    deflate_ffi dcore none flush = (Z_STREAM_ERROR, none) ∧
    inflate_ffi icore none flush = (Z_STREAM_ERROR, none) ∧
    deflateEnd_ffi ecore none = (Z_STREAM_ERROR, none) ∧
    inflateEnd_ffi iecore none = (Z_STREAM_ERROR, none) ∧
    uncompress_ffi ucore dest? none src? = (Z_STREAM_ERROR, none, none) ∧
    uncompress_ffi ucore none (some dl) src? = (Z_STREAM_ERROR, some dl, none) ∧
    uncompress_ffi ucore (some ()) (some dl) none = (Z_STREAM_ERROR, some dl, none) ∧
    compress2_ffi ccore dest? none src? level = (Z_STREAM_ERROR, none, none) ∧
    compress2_ffi ccore none (some dl) src? level = (Z_STREAM_ERROR, some dl, none) ∧
    compress2_ffi ccore (some ()) (some dl) none level
      = (Z_STREAM_ERROR, some dl, none) := by
  refine ⟨rfl, rfl, rfl, rfl, ?_, rfl, rfl, ?_, rfl, rfl⟩ <;> cases dest? <;> rfl

/-- **C10.**  For every flush value outside the defined set `0..=5`,
`deflate` returns `StreamError` without invoking the core (the stream is
unchanged), whereas `inflate` substitutes the default flush mode
(`NoFlush`) and runs the core. -/
theorem claim_C10_flush_validation (α : Type)
    (dcore icore : α → Flush → Int × α) (s : α) (flush : Int)
    (hbad : flush < 0 ∨ 5 < flush) :
    deflate_ffi dcore (some s) flush = (Z_STREAM_ERROR, some s) ∧
    inflate_ffi icore (some s) flush
      = ((icore s Flush.NoFlush).1, some (icore s Flush.NoFlush).2) := by
  have h0 : flush ≠ 0 := by omega
  have h1 : flush ≠ 1 := by omega
  have h2 : flush ≠ 2 := by omega
  have h3 : flush ≠ 3 := by omega
  have h4 : flush ≠ 4 := by omega
  have h5 : flush ≠ 5 := by omega
  have hnone : deflateFlushTryFrom flush = none := by
    rw [deflateFlushTryFrom, if_neg h0, if_neg h1, if_neg h2, if_neg h3,
      if_neg h4, if_neg h5]
  refine ⟨?_, ?_⟩
  · rw [deflate_ffi]
    rw [hnone]
  · rw [inflate_ffi, inflateFlushTryFromOrDefault, hnone]
    rfl

/-- **C6.**  Whenever the direct-copy path emits a stored block of payload
length `len`, the header write proceeds by: a placeholder header through
the block-header writer (its last four bytes are the length fields
`[0, 0, 255, 255]` of the empty dummy payload), a 4-byte rewind of the
pending buffer, the overwrite with `len` as little-endian `u16` followed
by the complement `!len` as little-endian `u16`, and a flush of exactly
those header bytes to the output; the byte count matches the accounted
header size `(bi_valid + 42) / 8`. -/
theorem claim_C6_header_write (strm : Stream) (len : Nat) (last : Bool)
    (hp : strm.state.pending.buf = []) (hb : strm.state.bi_valid ≤ 7)
    (hout : storedHeaderBytes strm.state ≤ strm.avail_out) :
    ∃ w : List Nat,
      (zng_tr_stored_block strm.state [] last).pending.buf = w ++ [0, 0, 255, 255] ∧
      (storedEmitHeader strm.state len last).pending.buf
        = w ++ (le16 len ++ le16 (65535 - len % 65536)) ∧
      (w ++ (le16 len ++ le16 (65535 - len % 65536))).length
        = (strm.state.bi_valid + 42) / 8 ∧
      (flush_pending { strm with state := storedEmitHeader strm.state len last }).dst
        = strm.dst ++ (w ++ (le16 len ++ le16 (65535 - len % 65536))) ∧
      (flush_pending { strm with state := storedEmitHeader strm.state len last
        }).state.pending.buf = [] := by
  obtain ⟨w, hw1, hw2, hw3⟩ := storedEmitHeader_buf strm.state len last hb
  rw [hp] at hw1 hw2
  simp only [List.nil_append] at hw1 hw2
  have hlen : (w ++ (le16 len ++ le16 (65535 - len % 65536))).length
      = (strm.state.bi_valid + 42) / 8 := by
    simp only [List.length_append, le16, List.length_cons, List.length_nil]
    omega
  have hle : ({ strm with state := storedEmitHeader strm.state len last } : Stream
      ).state.pending.buf.length
      ≤ ({ strm with state := storedEmitHeader strm.state len last } : Stream).avail_out := by
    show (storedEmitHeader strm.state len last).pending.buf.length ≤ strm.avail_out
    rw [hw2, hlen]
    exact hout
  refine ⟨w, hw1, hw2, hlen, ?_, ?_⟩
  · rw [flush_pending_all _ hle]
    show strm.dst ++ (storedEmitHeader strm.state len last).pending.buf = _
    rw [hw2]
  · rw [flush_pending_all _ hle]

theorem claim_C6_witness :
    ∃ w : List Nat,
      (zng_tr_stored_block c6stream.state [] true).pending.buf = w ++ [0, 0, 255, 255] ∧
      (storedEmitHeader c6stream.state 300 true).pending.buf
        = w ++ (le16 300 ++ le16 (65535 - 300 % 65536)) ∧
      (w ++ (le16 300 ++ le16 (65535 - 300 % 65536))).length
        = (c6stream.state.bi_valid + 42) / 8 ∧
      (flush_pending { c6stream with
        state := storedEmitHeader c6stream.state 300 true }).dst
        = c6stream.dst ++ (w ++ (le16 300 ++ le16 (65535 - 300 % 65536))) ∧
      (flush_pending { c6stream with
        state := storedEmitHeader c6stream.state 300 true }).state.pending.buf = [] :=
  claim_C6_header_write c6stream 300 true (by rfl) (by decide) (by decide)

/-- **C5.**  One iteration of the direct-copy loop, given room for the
header bytes: it breaks without emitting anything exactly when
`len < min_block` and (`len = 0` while not finishing, or flush is
no-flush, or `len` does not consume all of `left + avail_in`); otherwise
it emits a stored block of payload length `len` (header plus `len` bytes
appended to the output). -/
theorem claim_C5_loop_decision (strm : Stream) (flush : Flush) (min_block : Nat)
    (last0 : Bool)
    (hp : strm.state.pending.buf = []) (hb : strm.state.bi_valid ≤ 7)
    (hout : storedHeaderBytes strm.state ≤ strm.avail_out)
    (hbs0 : 0 ≤ strm.state.block_start)
    (hbss : strm.state.block_start ≤ (strm.state.strstart : Int))
    (hsw : strm.state.strstart ≤ strm.state.window.length)
    (hs64 : strm.state.strstart < 2 ^ 64)
    (hsrc : strm.next_in + strm.avail_in ≤ strm.src.length) :
    (storedLoopStep strm flush min_block last0 = .brk strm last0 ↔
      storedLen strm (storedLeft strm.state) < min_block ∧
        ((storedLen strm (storedLeft strm.state) = 0 ∧ flush ≠ Flush.Finish) ∨
          flush = Flush.NoFlush ∨
          storedLen strm (storedLeft strm.state)
            ≠ storedLeft strm.state + strm.avail_in)) ∧
    (¬ (storedLen strm (storedLeft strm.state) < min_block ∧
        ((storedLen strm (storedLeft strm.state) = 0 ∧ flush ≠ Flush.Finish) ∨
          flush = Flush.NoFlush ∨
          storedLen strm (storedLeft strm.state)
            ≠ storedLeft strm.state + strm.avail_in)) →
      ∃ strm' l',
        (storedLoopStep strm flush min_block last0 = .brk strm' l' ∨
          storedLoopStep strm flush min_block last0 = .cont strm' l') ∧
        strm'.dst.length = strm.dst.length + storedHeaderBytes strm.state
          + storedLen strm (storedLeft strm.state)) := by
  have hnotlt : ¬ strm.avail_out < storedHeaderBytes strm.state := Nat.not_lt.mpr hout
  have hhdr5 : 5 ≤ storedHeaderBytes strm.state := by
    rw [storedHeaderBytes]; omega
  have hstep : storedLoopStep strm flush min_block last0 =
      if storedLen strm (storedLeft strm.state) < min_block ∧
          ((storedLen strm (storedLeft strm.state) = 0 ∧ flush ≠ Flush.Finish) ∨
            flush = Flush.NoFlush ∨
            storedLen strm (storedLeft strm.state)
              ≠ storedLeft strm.state + strm.avail_in) then
        .brk strm last0
      else
        (if (flush = Flush.Finish ∧ storedLen strm (storedLeft strm.state)
              = storedLeft strm.state + strm.avail_in : Bool) then
          .brk (storedEmit strm (storedLeft strm.state)
            (storedLen strm (storedLeft strm.state))
            (flush = Flush.Finish ∧ storedLen strm (storedLeft strm.state)
              = storedLeft strm.state + strm.avail_in))
            (flush = Flush.Finish ∧ storedLen strm (storedLeft strm.state)
              = storedLeft strm.state + strm.avail_in)
        else
          .cont (storedEmit strm (storedLeft strm.state)
            (storedLen strm (storedLeft strm.state))
            (flush = Flush.Finish ∧ storedLen strm (storedLeft strm.state)
              = storedLeft strm.state + strm.avail_in))
            (flush = Flush.Finish ∧ storedLen strm (storedLeft strm.state)
              = storedLeft strm.state + strm.avail_in)) := by
    simp only [storedLoopStep, if_neg hnotlt]
  by_cases hcond : storedLen strm (storedLeft strm.state) < min_block ∧
      ((storedLen strm (storedLeft strm.state) = 0 ∧ flush ≠ Flush.Finish) ∨
        flush = Flush.NoFlush ∨
        storedLen strm (storedLeft strm.state) ≠ storedLeft strm.state + strm.avail_in)
  · rw [hstep, if_pos hcond]
    exact ⟨⟨fun _ => hcond, fun _ => rfl⟩, fun hn => absurd hcond hn⟩
  · rw [hstep, if_neg hcond]
    have hE := storedEmit_dst_length strm
      (flush = Flush.Finish ∧ storedLen strm (storedLeft strm.state)
        = storedLeft strm.state + strm.avail_in)
      hp hb hout hbs0 hbss hsw hs64 hsrc
    constructor
    · constructor
      · intro heq
        exfalso
        by_cases hlast : (flush = Flush.Finish ∧ storedLen strm (storedLeft strm.state)
            = storedLeft strm.state + strm.avail_in : Bool) = true
        · rw [if_pos hlast] at heq
          have hEeq : storedEmit strm (storedLeft strm.state)
              (storedLen strm (storedLeft strm.state)) _ = strm :=
            (LoopOut.brk.injEq _ _ _ _).mp heq |>.1
          have := congrArg (fun s => s.dst.length) hEeq
          simp only at this
          rw [hE] at this
          omega
        · rw [if_neg hlast] at heq
          exact LoopOut.noConfusion heq
      · intro hc
        exact absurd hc hcond
    · intro _
      by_cases hlast : (flush = Flush.Finish ∧ storedLen strm (storedLeft strm.state)
          = storedLeft strm.state + strm.avail_in : Bool) = true
      · rw [if_pos hlast]
        exact ⟨_, _, Or.inl rfl, hE⟩
      · rw [if_neg hlast]
        exact ⟨_, _, Or.inr rfl, hE⟩

theorem claim_C5_witness :
    ∃ strm' l',
      (storedLoopStep c5stream Flush.Finish 4 false = LoopOut.brk strm' l' ∨
        storedLoopStep c5stream Flush.Finish 4 false = LoopOut.cont strm' l') ∧
      strm'.dst.length = c5stream.dst.length + storedHeaderBytes c5stream.state
        + storedLen c5stream (storedLeft c5stream.state) := by
  have h := claim_C5_loop_decision c5stream Flush.Finish 4 false (by rfl) (by decide)
    (by decide) (by decide) (by decide) (by decide) (by decide) (by decide)
  exact h.2 (by decide)

/-! ## Window reconciliation (C7) -/

theorem writeAt_length (dst : List Nat) (off : Nat) (src : List Nat)
    (h : off + src.length ≤ dst.length) :
    (writeAt dst off src).length = dst.length := by
  rw [writeAt]
  simp only [List.length_append, List.length_take, List.length_drop]
  omega

theorem writeAt_extract (dst : List Nat) (off : Nat) (src : List Nat)
    (h : off + src.length ≤ dst.length) :
    ((writeAt dst off src).drop off).take src.length = src := by
  rw [writeAt]
  have h1 : (dst.take off).length = off := by
    rw [List.length_take]
    omega
  rw [List.append_assoc, List.drop_left' h1, List.take_left]

theorem writeAt_extract' (dst : List Nat) (off : Nat) (src : List Nat) (n : Nat)
    (hn : src.length = n) (h : off + n ≤ dst.length) :
    ((writeAt dst off src).drop off).take n = src := by
  subst hn
  exact writeAt_extract dst off src h

/-- **C7.**  After the direct-copy loop, with `used` input bytes consumed
directly: if `used ≥ w_size` the window history is replaced by the last
`w_size` bytes of the consumed input, `matches` is set to 2 and
`strstart` becomes the window size; if `0 < used < w_size` the window is
slid down first exactly when the remaining capacity cannot hold `used`
more bytes, the `used` consumed bytes are appended at `strstart`, and
`insert` grows by `min used (w_size - insert)`; in either case
`block_start` ends up equal to `strstart`. -/
theorem claim_C7_window_reconcile (strm : Stream) (used : Nat)
    (hwin : strm.state.window.length = strm.state.window_size)
    (hni : used ≤ strm.next_in) (hsrc : strm.next_in ≤ strm.src.length)
    (hssw : strm.state.strstart ≤ strm.state.window_size)
    (h2w : strm.state.window_size = 2 * strm.state.w_size)
    (hwpos : 0 < strm.state.w_size) :
    (strm.state.w_size ≤ used →
      (reconcileWindow strm used).state.window.take strm.state.w_size
          = takeLast (strm.src.take strm.next_in) strm.state.w_size ∧
        (reconcileWindow strm used).state.matches_ = 2 ∧
        (reconcileWindow strm used).state.strstart = strm.state.w_size ∧
        (reconcileWindow strm used).state.block_start = (strm.state.w_size : Int)) ∧
    (0 < used → used < strm.state.w_size →
      ((reconcileWindow strm used).state.window.drop
            (if strm.state.window_size - strm.state.strstart ≤ used then
              (slideWindow strm.state).strstart else strm.state.strstart)).take used
          = takeLast (strm.src.take strm.next_in) used ∧
        (reconcileWindow strm used).state.strstart
          = (if strm.state.window_size - strm.state.strstart ≤ used then
              (slideWindow strm.state).strstart else strm.state.strstart) + used ∧
        (reconcileWindow strm used).state.insert
          = (if strm.state.window_size - strm.state.strstart ≤ used then
              (slideWindow strm.state).insert else strm.state.insert)
            + min used (strm.state.w_size -
                (if strm.state.window_size - strm.state.strstart ≤ used then
                  (slideWindow strm.state).insert else strm.state.insert)) ∧
        (reconcileWindow strm used).state.block_start
          = (((reconcileWindow strm used).state.strstart : Nat) : Int)) := by
  have htlen : (strm.src.take strm.next_in).length = strm.next_in := by
    rw [List.length_take]
    omega
  constructor
  · intro hge
    have hpos : 0 < used := lt_of_lt_of_le hwpos hge
    have hwni : strm.state.w_size ≤ strm.next_in := le_trans hge hni
    have hseg : ((strm.src.take strm.next_in).drop
        (strm.next_in - strm.state.w_size)).length = strm.state.w_size := by
      rw [List.length_drop, htlen]
      omega
    simp only [reconcileWindow, if_pos hpos, if_pos hge]
    refine ⟨?_, by trivial, by trivial, by trivial⟩
    show (writeAt strm.state.window 0
        ((strm.src.take strm.next_in).drop (strm.next_in - strm.state.w_size))).take
          strm.state.w_size = _
    rw [writeAt, List.take_zero, List.nil_append, List.take_left' hseg, takeLast, htlen]
  · intro hpos hlt
    have hseg2 : ((strm.src.take strm.next_in).drop (strm.next_in - used)).length
        = used := by
      rw [List.length_drop, htlen]
      omega
    have htl2 : takeLast (strm.src.take strm.next_in) used
        = (strm.src.take strm.next_in).drop (strm.next_in - used) := by
      rw [takeLast, htlen]
    simp only [reconcileWindow, if_pos hpos, if_neg (Nat.not_le.mpr hlt)]
    by_cases hsl : strm.state.window_size - strm.state.strstart ≤ used
    · simp only [if_pos hsl]
      refine ⟨?_, by trivial, by trivial, by trivial⟩
      show ((writeAt (slideWindow strm.state).window (slideWindow strm.state).strstart
          ((strm.src.take strm.next_in).drop (strm.next_in - used))).drop
            (slideWindow strm.state).strstart).take used = _
      have hslwin : (slideWindow strm.state).window.length
          = strm.state.window.length := by
        rw [slideWindow]
        apply writeAt_length
        rw [List.length_take, List.length_drop]
        omega
      have hslss : (slideWindow strm.state).strstart
          = strm.state.strstart - strm.state.w_size := rfl
      rw [htl2]
      apply writeAt_extract'
      · exact hseg2
      · rw [hslwin, hslss, hwin]
        omega
    · simp only [if_neg hsl]
      refine ⟨?_, by trivial, by trivial, by trivial⟩
      show ((writeAt strm.state.window strm.state.strstart
          ((strm.src.take strm.next_in).drop (strm.next_in - used))).drop
            strm.state.strstart).take used = _
      rw [htl2]
      apply writeAt_extract'
      · exact hseg2
      · rw [hwin]
        omega

theorem claim_C7_witness :
    (reconcileWindow c7stream 3).state.window.take c7stream.state.w_size
        = takeLast (c7stream.src.take c7stream.next_in) c7stream.state.w_size ∧
      (reconcileWindow c7stream 3).state.matches_ = 2 ∧
      (reconcileWindow c7stream 3).state.strstart = c7stream.state.w_size ∧
      (reconcileWindow c7stream 3).state.block_start = (c7stream.state.w_size : Int) := by
  have h := claim_C7_window_reconcile c7stream 3 (by decide) (by decide) (by decide)
    (by decide) (by decide) (by decide)
  exact h.1 (by decide)

/-! ## The window invariant across `deflate_stored` (C8) -/

theorem storedEmit_state (strm : Stream) (left len : Nat) (last : Bool) :
    (storedEmit strm left len last).state.strstart = strm.state.strstart ∧
    (storedEmit strm left len last).state.window_size = strm.state.window_size ∧
    (storedEmit strm left len last).state.w_size = strm.state.w_size ∧
    ((storedEmit strm left len last).state.block_start = strm.state.block_start ∨
      (storedEmit strm left len last).state.block_start
        = strm.state.block_start + ((min left len : Nat) : Int)) := by
  simp only [storedEmit, flush_pending, takeInput]
  by_cases h1 : 0 < left
  · simp only [if_pos h1]
    by_cases h2 : 0 < len - min left len
    · simp only [if_pos h2]
      exact ⟨by simp, by simp, by simp, Or.inr (by simp)⟩
    · simp only [if_neg h2]
      exact ⟨by simp, by simp, by simp, Or.inr (by simp)⟩
  · simp only [if_neg h1]
    by_cases h2 : 0 < len
    · simp only [if_pos h2]
      exact ⟨by simp, by simp, by simp, Or.inl (by simp)⟩
    · simp only [if_neg h2]
      exact ⟨by simp, by simp, by simp, Or.inl (by simp)⟩

theorem storedEmit_inv (strm : Stream) (len : Nat) (last : Bool)
    (h : Inv strm.state) :
    Inv (storedEmit strm (storedLeft strm.state) len last).state := by
  obtain ⟨hss, hws, hwz, hbs⟩ := storedEmit_state strm (storedLeft strm.state) len last
  obtain ⟨h1, h2, h3⟩ := h
  have htoNat : ((storedLeft strm.state : Nat) : Int)
      = (strm.state.strstart : Int) - strm.state.block_start := by
    rw [storedLeft]
    exact Int.toNat_of_nonneg (by omega)
  have hmin : min (storedLeft strm.state) len ≤ storedLeft strm.state :=
    Nat.min_le_left _ _
  refine ⟨?_, ?_, ?_⟩
  · rcases hbs with hb | hb <;> rw [hb] <;> omega
  · rw [hss]
    rcases hbs with hb | hb <;> rw [hb] <;> omega
  · rw [hss, hws]
    exact h3

theorem storedLoopStep_inv (strm : Stream) (flush : Flush) (mb : Nat) (l0 : Bool)
    (h : Inv strm.state) :
    Inv (storedLoopStep strm flush mb l0).stream.state ∧
    (storedLoopStep strm flush mb l0).stream.state.window_size
      = strm.state.window_size ∧
    (storedLoopStep strm flush mb l0).stream.state.w_size = strm.state.w_size := by
  simp only [storedLoopStep]
  split_ifs with hd hc hl <;> simp only [LoopOut.stream]
  · exact ⟨h, trivial, trivial⟩
  · exact ⟨h, trivial, trivial⟩
  · obtain ⟨hss, hws, hwz, _⟩ := storedEmit_state strm (storedLeft strm.state)
      (storedLen strm (storedLeft strm.state))
      (decide (flush = Flush.Finish ∧ storedLen strm (storedLeft strm.state)
        = storedLeft strm.state + strm.avail_in))
    exact ⟨storedEmit_inv strm _ _ h, hws, hwz⟩
  · obtain ⟨hss, hws, hwz, _⟩ := storedEmit_state strm (storedLeft strm.state)
      (storedLen strm (storedLeft strm.state))
      (decide (flush = Flush.Finish ∧ storedLen strm (storedLeft strm.state)
        = storedLeft strm.state + strm.avail_in))
    exact ⟨storedEmit_inv strm _ _ h, hws, hwz⟩

theorem storedLoop_inv (fuel : Nat) :
    ∀ (strm : Stream) (flush : Flush) (mb : Nat) (l0 : Bool), Inv strm.state →
      Inv (storedLoop fuel strm flush mb l0).1.state ∧
      (storedLoop fuel strm flush mb l0).1.state.window_size
        = strm.state.window_size ∧
      (storedLoop fuel strm flush mb l0).1.state.w_size = strm.state.w_size := by
  induction fuel with
  | zero => exact fun strm flush mb l0 h => ⟨h, rfl, rfl⟩
  | succ fuel ih =>
    intro strm flush mb l0 h
    have hstep := storedLoopStep_inv strm flush mb l0 h
    rw [storedLoop]
    cases hout : storedLoopStep strm flush mb l0 with
    | brk s l =>
      rw [hout] at hstep
      simp only [LoopOut.stream] at hstep
      exact hstep
    | cont s l =>
      rw [hout] at hstep
      simp only [LoopOut.stream] at hstep
      have := ih s flush mb l hstep.1
      exact ⟨this.1, this.2.1.trans hstep.2.1, this.2.2.trans hstep.2.2⟩

theorem reconcileWindow_inv (strm : Stream) (used : Nat)
    (h : Inv strm.state)
    (h2w : strm.state.window_size = 2 * strm.state.w_size) :
    Inv (reconcileWindow strm used).state ∧
    (reconcileWindow strm used).state.window_size = strm.state.window_size ∧
    (reconcileWindow strm used).state.w_size = strm.state.w_size := by
  obtain ⟨h1, h2, h3⟩ := h
  have hsl1 : (slideWindow strm.state).strstart
      = strm.state.strstart - strm.state.w_size := rfl
  have hsl2 : (slideWindow strm.state).window_size = strm.state.window_size := rfl
  simp only [reconcileWindow]
  split_ifs with hpos hge hsl
  · refine ⟨⟨?_, ?_, ?_⟩, rfl, rfl⟩
    · show (0 : Int) ≤ (strm.state.w_size : Int)
      omega
    · show ((strm.state.w_size : Nat) : Int) ≤ ((strm.state.w_size : Nat) : Int)
      exact le_refl _
    · show strm.state.w_size ≤ strm.state.window_size
      omega
  · refine ⟨⟨?_, ?_, ?_⟩, rfl, rfl⟩
    · show (0 : Int) ≤ (((slideWindow strm.state).strstart + used : Nat) : Int)
      omega
    · show (((slideWindow strm.state).strstart + used : Nat) : Int)
        ≤ (((slideWindow strm.state).strstart + used : Nat) : Int)
      exact le_refl _
    · show (slideWindow strm.state).strstart + used ≤ (slideWindow strm.state).window_size
      rw [hsl1, hsl2]
      omega
  · refine ⟨⟨?_, ?_, ?_⟩, rfl, rfl⟩
    · show (0 : Int) ≤ ((strm.state.strstart + used : Nat) : Int)
      omega
    · show ((strm.state.strstart + used : Nat) : Int)
        ≤ ((strm.state.strstart + used : Nat) : Int)
      exact le_refl _
    · show strm.state.strstart + used ≤ strm.state.window_size
      omega
  · exact ⟨⟨h1, h2, h3⟩, rfl, rfl⟩

theorem zng_tr_stored_block_fields (st : DeflateState) (buf : List Nat) (last : Bool) :
    (zng_tr_stored_block st buf last).strstart = st.strstart ∧
    (zng_tr_stored_block st buf last).block_start = st.block_start ∧
    (zng_tr_stored_block st buf last).window_size = st.window_size ∧
    (zng_tr_stored_block st buf last).w_size = st.w_size := by
  rw [zng_tr_stored_block, biWindup, sendBits]
  split_ifs <;> exact ⟨rfl, rfl, rfl, rfl⟩

theorem fillWindow_state (strm : Stream) (n : Nat) :
    (fillWindow strm n).state.strstart = strm.state.strstart + n ∧
    (fillWindow strm n).state.block_start = strm.state.block_start ∧
    (fillWindow strm n).state.window_size = strm.state.window_size ∧
    (fillWindow strm n).state.w_size = strm.state.w_size := by
  rw [fillWindow, takeInput]
  exact ⟨rfl, rfl, rfl, rfl⟩

theorem flush_pending_state_fields (strm : Stream) :
    (flush_pending strm).state.strstart = strm.state.strstart ∧
    (flush_pending strm).state.block_start = strm.state.block_start ∧
    (flush_pending strm).state.window_size = strm.state.window_size ∧
    (flush_pending strm).state.w_size = strm.state.w_size :=
  ⟨rfl, rfl, rfl, rfl⟩

theorem bumpHighWater_fields (strm : Stream) :
    (bumpHighWater strm).state.strstart = strm.state.strstart ∧
    (bumpHighWater strm).state.block_start = strm.state.block_start ∧
    (bumpHighWater strm).state.window_size = strm.state.window_size ∧
    (bumpHighWater strm).state.w_size = strm.state.w_size :=
  ⟨rfl, rfl, rfl, rfl⟩

theorem bumpHighWater_inv (strm : Stream) (h : Inv strm.state) :
    Inv (bumpHighWater strm).state := h

theorem fillMaybe_inv (strm : Stream) (h : Inv strm.state) :
    Inv (fillMaybe strm).state ∧
    (fillMaybe strm).state.window_size = strm.state.window_size ∧
    (fillMaybe strm).state.w_size = strm.state.w_size := by
  obtain ⟨h1, h2, h3⟩ := h
  rw [fillMaybe]
  split_ifs with hpos
  · obtain ⟨hss, hbs, hws, hwz⟩ := fillWindow_state strm
      (min (strm.state.window_size - strm.state.strstart) strm.avail_in)
    have hmin : min (strm.state.window_size - strm.state.strstart) strm.avail_in
        ≤ strm.state.window_size - strm.state.strstart := Nat.min_le_left _ _
    refine ⟨⟨?_, ?_, ?_⟩, hws, hwz⟩
    · rw [hbs]; exact h1
    · rw [hbs, hss]; omega
    · rw [hss, hws]; omega
  · exact ⟨⟨h1, h2, h3⟩, rfl, rfl⟩

theorem storedFallback_inv (strm4 : Stream) (flush : Flush)
    (h : Inv strm4.state)
    (hws64 : strm4.state.window_size < 2 ^ 64) :
    Inv (storedFallback strm4 flush).2.state := by
  obtain ⟨h1, h2, h3⟩ := h
  have hws64i : (strm4.state.window_size : Int) < 2 ^ 64 := by exact_mod_cast hws64
  have hssle : (strm4.state.strstart : Int) ≤ (strm4.state.window_size : Int) := by
    exact_mod_cast h3
  have hu : ((usizeOfInt ((strm4.state.strstart : Int) - strm4.state.block_start)) : Int)
      = (strm4.state.strstart : Int) - strm4.state.block_start := by
    unfold usizeOfInt
    omega
  simp only [storedFallback]
  split
  · dsimp only
    refine ⟨?_, ?_, ?_⟩
    · rw [(flush_pending_state_fields _).2.1]
      dsimp only
      rw [(zng_tr_stored_block_fields _ _ _).2.1]
      omega
    · rw [(flush_pending_state_fields _).2.1, (flush_pending_state_fields _).1]
      dsimp only
      rw [(zng_tr_stored_block_fields _ _ _).2.1, (zng_tr_stored_block_fields _ _ _).1]
      omega
    · rw [(flush_pending_state_fields _).1, (flush_pending_state_fields _).2.2.1]
      dsimp only
      rw [(zng_tr_stored_block_fields _ _ _).1, (zng_tr_stored_block_fields _ _ _).2.2.1]
      exact h3
  · exact ⟨h1, h2, h3⟩

theorem deflateStoredTail_inv (strm2 : Stream) (flush : Flush) (last : Bool)
    (h : Inv strm2.state)
    (hws64 : strm2.state.window_size < 2 ^ 64) :
    ∀ b strm', deflateStoredTail strm2 flush last = .ok (b, strm') →
      Inv strm'.state := by
  intro b strm' hok
  rw [deflateStoredTail] at hok
  split_ifs at hok with hl hbd hf
  · simp only [Except.ok.injEq, Prod.mk.injEq] at hok
    rw [← hok.2]
    exact h
  · simp only [Except.ok.injEq, Prod.mk.injEq] at hok
    rw [← hok.2]
    exact h
  · simp only [Except.ok.injEq] at hok
    have hs' : strm' = (storedFallback (bumpHighWater (fillMaybe strm2)) flush).2 := by
      rw [hok]
    rw [hs']
    obtain ⟨hfInv, hfws, hfwz⟩ := fillMaybe_inv strm2 h
    have hbInv : Inv (bumpHighWater (fillMaybe strm2)).state :=
      bumpHighWater_inv _ hfInv
    have hbws : (bumpHighWater (fillMaybe strm2)).state.window_size
        = strm2.state.window_size := by
      rw [(bumpHighWater_fields _).2.2.1, hfws]
    exact storedFallback_inv _ flush hbInv (by rw [hbws]; exact hws64)

theorem deflateStoredRest_inv (strm : Stream) (flush : Flush) (last : Bool)
    (used : Nat) (h : Inv strm.state)
    (h2w : strm.state.window_size = 2 * strm.state.w_size)
    (hws64 : strm.state.window_size < 2 ^ 64) :
    ∀ b strm', deflateStoredRest strm flush last used = .ok (b, strm') →
      Inv strm'.state := by
  intro b strm' hok
  rw [deflateStoredRest] at hok
  obtain ⟨hrInv, hrws, hrwz⟩ := reconcileWindow_inv strm used h h2w
  have hbws : (bumpHighWater (reconcileWindow strm used)).state.window_size
      = strm.state.window_size := by
    rw [(bumpHighWater_fields _).2.2.1, hrws]
  exact deflateStoredTail_inv _ flush last (bumpHighWater_inv _ hrInv)
    (by rw [hbws]; exact hws64) b strm' hok

/-- **C3.**  At the concrete state above, the remaining input exceeds the
remaining window room while the unflushed region starts at or past one
full window — and `deflate_stored` does **not** complete with a
recoverable status: it hits the `todo!("fill window")` panic (modelled as
`Except.error`), contradicting the claim (and the spec's stated intent of
a recoverable continuation / distinct unsupported-operation error). -/
theorem claim_C3_todo_panics :
    (fillWindowStream.state.window_size - fillWindowStream.state.strstart <
        fillWindowStream.avail_in ∧
      (fillWindowStream.state.w_size : Int) ≤ fillWindowStream.state.block_start) ∧
    deflate_stored fillWindowStream Flush.NoFlush = .error "fill window" :=
  ⟨by decide, rfl⟩

theorem claim_C10_witness :
    ((42 : Int) < 0 ∨ (5 : Int) < 42) ∧
    deflate_ffi (fun (s : Unit) (_ : Flush) => ((0 : Int), s)) (some ()) 42
      = (Z_STREAM_ERROR, some ()) ∧
    inflate_ffi (fun (s : Unit) (_ : Flush) => ((7 : Int), s)) (some ()) 42
      = (7, some ()) := by
  refine ⟨by norm_num, ?_⟩
  have h := claim_C10_flush_validation Unit (fun s _ => (0, s)) (fun s _ => (7, s))
    () 42 (by norm_num)
  simpa using h

/-- **C8.**  If `0 ≤ block_start ≤ strstart ≤ window_size` holds on entry
(with the structural facts `window_size = 2 * w_size` and
`window_size < 2^64` of every real deflate state), then it holds
throughout the direct-copy loop (after every number of iterations, for
any `min_block` and finish flag), after the window reconciliation that
follows the loop, and at the final state of every non-panicking call to
`deflate_stored` (which passes through the pending-buffer fallback's
`block_start` advance). -/
theorem claim_C8_invariant (strm : Stream) (flush : Flush)
    (h : Inv strm.state)
    (h2w : strm.state.window_size = 2 * strm.state.w_size)
    (hws64 : strm.state.window_size < 2 ^ 64) :
    (∀ fuel mb l0, Inv (storedLoop fuel strm flush mb l0).1.state) ∧
    (∀ used, Inv (bumpHighWater (reconcileWindow strm used)).state) ∧
    (∀ b strm', deflate_stored strm flush = .ok (b, strm') →
      Inv strm'.state) := by
  refine ⟨fun fuel mb l0 => (storedLoop_inv fuel strm flush mb l0 h).1,
    fun used => bumpHighWater_inv _ (reconcileWindow_inv strm used h h2w).1,
    fun b strm' hok => ?_⟩
  simp only [deflate_stored] at hok
  obtain ⟨hlInv, hlws, hlwz⟩ := storedLoop_inv (strm.avail_out + 1) strm flush
    (min (strm.state.pending.cap - 5) strm.state.w_size) false h
  exact deflateStoredRest_inv _ flush _ _ hlInv
    (by rw [hlws, hlwz]; exact h2w) (by rw [hlws]; exact hws64) b strm' hok

theorem claim_C8_witness :
    Inv (storedLoop 1 c8stream Flush.NoFlush 2 false).1.state ∧
    Inv (bumpHighWater (reconcileWindow c8stream 0)).state ∧
    (∀ b strm', deflate_stored c8stream Flush.NoFlush = .ok (b, strm') →
      Inv strm'.state) :=
  have H := claim_C8_invariant c8stream Flush.NoFlush
    ⟨by decide, by decide, by decide⟩ (by decide) (by decide)
  ⟨H.1 1 2 false, H.2.1 0, H.2.2⟩

end ZlibRs
